import Mathlib

/-!
Shallow embedding of the rq repository (a q/kdb-style lexer front end and its
temporal value domain) and proofs about the spec claims.

Sources embedded:
- src/qtype/chrono.rs : six temporal types (Date, Month, Minute, Second,
  Timespan, Timestamp), each a wrapper over a signed machine integer with
  literal parse/format, integer constructors, and arithmetic.
- src/lex.rs          : Numerical (suffix/shape classifiers), TokenKind,
  the Lexer state machine with one-token lookahead.
- src/parse.rs        : the vector-grouping preprocessor over token lists.

Modelling conventions:
- Machine integers (i32, i64) are Int; where wrap-around matters, the
  wrap-around is explicit (wrap32 / wrap64).  A Rust assert! that fails, or an
  overflow panic, is modelled as the constructor returning none.
- Source text is a list of characters; the model covers ASCII sources, where
  one char is one byte, matching the byte offsets the Rust code uses.
- The chrono crate (NaiveDate / NaiveDateTime) is modelled by the standard
  proleptic-Gregorian civil-calendar conversion (civilFromDays /
  daysFromCivil) and fixed-width field parsing on the canonical forms that
  to_literal emits.
-/

namespace RQ

/-! ## Decimal digit formatting and parsing

Models Rust's decimal integer formatting (format! with zero padding) and
str::parse for unsigned/signed integers. -/

/-- The character for a single decimal digit d < 10. -/
def digitChar (d : Nat) : Char := Char.ofNat (48 + d)

/-- Decimal digits of n, most significant first; [] for n = 0.
Fuel-based so that the kernel can evaluate it; fuel ≥ n suffices. -/
def natDigitsGo : Nat → Nat → List Char
  | 0, _ => []
  | fuel + 1, n => if n = 0 then [] else natDigitsGo fuel (n / 10) ++ [digitChar (n % 10)]

/-- Decimal representation of a natural number, as Rust formats it. -/
def natDecimal (n : Nat) : List Char := if n = 0 then ['0'] else natDigitsGo n n

/-- Left-pad with zeros to width w (Rust format! zero fill). -/
def padZeros (w : Nat) (s : List Char) : List Char := List.replicate (w - s.length) '0' ++ s

/-- Zero-padded decimal of a natural number. -/
def fmtNat (w n : Nat) : List Char := padZeros w (natDecimal n)

/-- Zero-padded decimal of a signed integer; Rust puts the padding zeros after
the sign. -/
def fmtInt (w : Nat) (x : Int) : List Char :=
  if x < 0 then '-' :: padZeros (w - 1) (natDecimal x.natAbs) else padZeros w (natDecimal x.natAbs)

/-- Whether a character is an ASCII decimal digit. -/
def isDigitChar (c : Char) : Bool := decide ('0' ≤ c ∧ c ≤ '9')

/-- Value of a digit string, most significant first. -/
def digitsVal (s : List Char) : Nat := s.foldl (fun a c => 10 * a + (c.toNat - 48)) 0

/-- Parse a nonempty all-digit string. -/
def parseNatDigits (s : List Char) : Option Nat :=
  if s ≠ [] ∧ s.all isDigitChar then some (digitsVal s) else none

/-- Models Rust unsigned FromStr: optional leading plus, then digits. -/
def parseNat (s : List Char) : Option Nat :=
  match s with
  | '+' :: t => parseNatDigits t
  | t => parseNatDigits t

/-- Models Rust signed FromStr: optional sign, then digits. -/
def parseInt (s : List Char) : Option Int :=
  match s with
  | '-' :: t => (parseNatDigits t).map (fun n => -(n : Int))
  | '+' :: t => (parseNatDigits t).map (fun n => (n : Int))
  | t => (parseNatDigits t).map (fun n => (n : Int))

/-- Parse exactly k leading digit characters (accumulator form), returning the
value and the remaining characters. -/
def takeFixedGo (acc : Nat) : Nat → List Char → Option (Nat × List Char)
  | 0, s => some (acc, s)
  | k + 1, c :: t => if isDigitChar c then takeFixedGo (10 * acc + (c.toNat - 48)) k t else none
  | _ + 1, [] => none

/-- Parse exactly k leading digit characters. -/
def takeFixed (k : Nat) (s : List Char) : Option (Nat × List Char) := takeFixedGo 0 k s

/-- Require a specific leading character. -/
def expectChar (c : Char) : List Char → Option (List Char)
  | x :: t => if x = c then some t else none
  | [] => none

/-- A separator character followed by exactly k digits. -/
def sepFixed (c : Char) (k : Nat) (s : List Char) : Option (Nat × List Char) :=
  (expectChar c s).bind (takeFixed k)

/-- Whether the literal starts with a minus sign (the sign of the regex day
field). -/
def signNeg (literal : List Char) : Bool :=
  match literal with
  | '-' :: _ => true
  | _ => false

/-- The literal with the optional leading minus sign removed. -/
def signRest (literal : List Char) : List Char :=
  match literal with
  | '-' :: t => t
  | t => t

/-- The optional fractional part of the timespan regex: either nothing, or a
dot followed by 1 to 9 digits, right-padded with zeros to 9 digits as
format! with left-aligned zero fill does. -/
def parseFraction : List Char → Option Nat
  | [] => some 0
  | '.' :: fr =>
    if fr ≠ [] ∧ fr.length ≤ 9 ∧ fr.all isDigitChar then
      some (digitsVal (fr ++ List.replicate (9 - fr.length) '0'))
    else none
  | _ => none

/-! ### Digit lemmas -/

theorem digitChar_spec (d : Nat) (h : d < 10) :
    isDigitChar (digitChar d) = true ∧ (digitChar d).toNat = 48 + d := by
  interval_cases d <;> decide

theorem digitsVal_append_singleton (s : List Char) (c : Char) :
    digitsVal (s ++ [c]) = 10 * digitsVal s + (c.toNat - 48) := by
  simp [digitsVal, List.foldl_append]

theorem natDigitsGo_spec (fuel : Nat) : ∀ n, n ≤ fuel →
    digitsVal (natDigitsGo fuel n) = n ∧ (natDigitsGo fuel n).all isDigitChar = true := by
  induction fuel with
  | zero => intro n h; interval_cases n; simp [natDigitsGo, digitsVal]
  | succ fuel ih =>
    intro n h
    by_cases h0 : n = 0
    · simp [natDigitsGo, h0, digitsVal]
    · have hdiv : n / 10 ≤ fuel := by
        have : n / 10 < n := Nat.div_lt_self (Nat.pos_of_ne_zero h0) (by norm_num)
        omega
      have ihn := ih (n / 10) hdiv
      have hd := digitChar_spec (n % 10) (Nat.mod_lt _ (by norm_num))
      constructor
      · rw [natDigitsGo, if_neg h0, digitsVal_append_singleton, ihn.1, hd.2]
        omega
      · rw [natDigitsGo, if_neg h0, List.all_append]
        simp [ihn.2, hd.1]

theorem natDigitsGo_length (fuel : Nat) : ∀ n k, n ≤ fuel → n < 10 ^ k →
    (natDigitsGo fuel n).length ≤ k := by
  induction fuel with
  | zero => intro n k h hk; simp [natDigitsGo]
  | succ fuel ih =>
    intro n k h hk
    by_cases h0 : n = 0
    · simp [natDigitsGo, h0]
    · rw [natDigitsGo, if_neg h0]
      have hk1 : k ≠ 0 := by
        intro hk0; rw [hk0] at hk; simp at hk; omega
      have hdiv : n / 10 ≤ fuel := by
        have : n / 10 < n := Nat.div_lt_self (Nat.pos_of_ne_zero h0) (by norm_num)
        omega
      have hlt : n / 10 < 10 ^ (k - 1) := by
        have h10 : 10 ^ k = 10 * 10 ^ (k - 1) := by
          conv_lhs => rw [show k = (k - 1) + 1 by omega]
          ring
        rw [h10] at hk
        exact Nat.div_lt_of_lt_mul hk
      have := ih (n / 10) (k - 1) hdiv hlt
      simp only [List.length_append, List.length_cons, List.length_nil]
      omega

theorem natDecimal_spec (n : Nat) :
    digitsVal (natDecimal n) = n ∧ (natDecimal n).all isDigitChar = true ∧
    1 ≤ (natDecimal n).length := by
  by_cases h0 : n = 0
  · subst h0; refine ⟨by decide, by decide, by decide⟩
  · have := natDigitsGo_spec n n le_rfl
    have hne : natDigitsGo n n ≠ [] := by
      intro hnil
      have := this.1
      rw [hnil] at this
      simp [digitsVal] at this
      exact h0 this.symm
    refine ⟨?_, ?_, ?_⟩
    · rw [natDecimal, if_neg h0]; exact this.1
    · rw [natDecimal, if_neg h0]; exact this.2
    · rw [natDecimal, if_neg h0]
      cases hcase : natDigitsGo n n with
      | nil => exact absurd hcase hne
      | cons a t => simp

theorem natDecimal_length (n k : Nat) (h1 : 1 ≤ k) (h2 : n < 10 ^ k) :
    (natDecimal n).length ≤ k := by
  by_cases h0 : n = 0
  · subst h0; simpa [natDecimal] using h1
  · rw [natDecimal, if_neg h0]
    exact natDigitsGo_length n n k le_rfl h2

theorem digitsVal_padZeros (w : Nat) (s : List Char) :
    digitsVal (padZeros w s) = digitsVal s := by
  rw [padZeros, digitsVal, digitsVal, List.foldl_append]
  congr 1
  induction (w - s.length) with
  | zero => simp
  | succ k ih => simpa using ih

theorem fmtNat_spec (w n : Nat) (h1 : 1 ≤ w) (h2 : n < 10 ^ w) :
    (fmtNat w n).length = w ∧ (fmtNat w n).all isDigitChar = true ∧
    digitsVal (fmtNat w n) = n := by
  have hs := natDecimal_spec n
  have hlen := natDecimal_length n w h1 h2
  refine ⟨?_, ?_, ?_⟩
  · simp only [fmtNat, padZeros, List.length_append, List.length_replicate]
    omega
  · simp only [fmtNat, padZeros, List.all_append, Bool.and_eq_true]
    refine ⟨?_, hs.2.1⟩
    rw [List.all_eq_true]
    intro c hc
    rw [List.eq_of_mem_replicate hc]
    decide
  · rw [fmtNat, digitsVal_padZeros]
    exact hs.1

theorem takeFixedGo_append (s : List Char) : ∀ (acc : Nat) (r : List Char),
    s.all isDigitChar = true →
    takeFixedGo acc s.length (s ++ r) = some (s.foldl (fun a c => 10 * a + (c.toNat - 48)) acc, r) := by
  induction s with
  | nil => intro acc r _; simp [takeFixedGo]
  | cons c t ih =>
    intro acc r hall
    simp only [List.all_cons, Bool.and_eq_true] at hall
    simp only [List.length_cons, List.cons_append, takeFixedGo, hall.1, if_true]
    rw [show t.append r = t ++ r from rfl, ih _ r hall.2]
    simp [List.foldl_cons]

theorem takeFixed_exact (k : Nat) (s r : List Char) (h1 : s.length = k)
    (h2 : s.all isDigitChar = true) :
    takeFixed k (s ++ r) = some (digitsVal s, r) := by
  subst h1
  exact takeFixedGo_append s 0 r h2

theorem parseInt_digits (s : List Char) (h1 : s ≠ []) (h2 : s.all isDigitChar = true) :
    parseInt s = some ((digitsVal s : Nat) : Int) := by
  cases s with
  | nil => exact absurd rfl h1
  | cons c t =>
    simp only [List.all_cons, Bool.and_eq_true] at h2
    have hc : isDigitChar c = true := h2.1
    have hne1 : c ≠ '-' := by intro hh; rw [hh] at hc; simp [isDigitChar] at hc
    have hne2 : c ≠ '+' := by intro hh; rw [hh] at hc; simp [isDigitChar] at hc
    rw [show parseInt (c :: t) = (parseNatDigits (c :: t)).map (fun n => (n : Int)) by
      rw [parseInt.eq_def]
      split
      · rename_i heq; rw [List.cons.injEq] at heq; exact absurd heq.1 hne1
      · rename_i heq; rw [List.cons.injEq] at heq; exact absurd heq.1 hne2
      · rfl]
    rw [parseNatDigits, if_pos ⟨by simp, by simp [hc, h2.2]⟩]
    rfl

theorem parseNat_digits (s : List Char) (h1 : s ≠ []) (h2 : s.all isDigitChar = true) :
    parseNat s = some (digitsVal s) := by
  cases s with
  | nil => exact absurd rfl h1
  | cons c t =>
    simp only [List.all_cons, Bool.and_eq_true] at h2
    have hc : isDigitChar c = true := h2.1
    have hne2 : c ≠ '+' := by intro hh; rw [hh] at hc; simp [isDigitChar] at hc
    rw [show parseNat (c :: t) = parseNatDigits (c :: t) by
      rw [parseNat.eq_def]
      split
      · rename_i heq; rw [List.cons.injEq] at heq; exact absurd heq.1 hne2
      · rfl]
    rw [parseNatDigits, if_pos ⟨by simp, by simp [hc, h2.2]⟩]

/-! ## Proleptic Gregorian civil calendar

Models the calendar arithmetic performed by the chrono crate (NaiveDate /
NaiveDateTime): converting a day count to a (year, month, day) triple and
back, on the proleptic Gregorian calendar with day 0 = 1970-01-01.  The
conversion is the standard era/year-of-era/day-of-year decomposition. -/

/-- Era index (400-year cycle) of a day count. -/
def cfdEra (z : Int) : Int := (z + 719468) / 146097

/-- Day within the era, in [0, 146096]. -/
def cfdDoe (z : Int) : Int := z + 719468 - 146097 * cfdEra z

/-- Year of the era, in [0, 399] (March-based years). -/
def cfdYoe (z : Int) : Int :=
  (cfdDoe z - cfdDoe z / 1460 + cfdDoe z / 36524 - cfdDoe z / 146096) / 365

/-- Day of the March-based year, in [0, 365]. -/
def cfdDoy (z : Int) : Int := cfdDoe z - (365 * cfdYoe z + cfdYoe z / 4 - cfdYoe z / 100)

/-- March-based month index, in [0, 11] (0 = March). -/
def cfdMp (z : Int) : Int := (5 * cfdDoy z + 2) / 153

/-- Day of the month, in [1, 31]. -/
def cfdDay (z : Int) : Int := cfdDoy z - (153 * cfdMp z + 2) / 5 + 1

/-- Civil month, in [1, 12]. -/
def cfdMonth (z : Int) : Int := if cfdMp z < 10 then cfdMp z + 3 else cfdMp z - 9

/-- Civil year (January-based). -/
def cfdYear (z : Int) : Int := cfdYoe z + 400 * cfdEra z + (if cfdMonth z ≤ 2 then 1 else 0)

/-- Civil (year, month, day) of a day count relative to 1970-01-01. -/
def civilFromDays (z : Int) : Int × Int × Int := (cfdYear z, cfdMonth z, cfdDay z)

/-- Day count relative to 1970-01-01 of a civil (year, month, day). -/
def daysFromCivil (y m d : Int) : Int :=
  let y2 := y - (if m ≤ 2 then 1 else 0)
  let era := y2 / 400
  let yoe := y2 - era * 400
  let doy := (153 * (m + (if 2 < m then (-3 : Int) else 9)) + 2) / 5 + d - 1
  let doe := yoe * 365 + yoe / 4 - yoe / 100 + doy
  era * 146097 + doe - 719468

/-- Number of days of a month in a given civil year (Gregorian leap rule). -/
def daysInMonth (y m : Int) : Int :=
  if m = 2 then (if y % 4 = 0 ∧ (y % 100 ≠ 0 ∨ y % 400 = 0) then 29 else 28)
  else if m = 4 ∨ m = 6 ∨ m = 9 ∨ m = 11 then 30 else 31

/-- Day count of the chrono epoch 2000-01-01 used by the temporal types. -/
def epochCivilDays : Int := daysFromCivil 2000 1 1

set_option maxHeartbeats 8000000 in
theorem year_core (doe yoe : Int) (h1 : 0 ≤ doe) (h2 : doe ≤ 146096)
    (hy : yoe = (doe - doe / 1460 + doe / 36524 - doe / 146096) / 365) :
    0 ≤ doe - (365 * yoe + yoe / 4 - yoe / 100) ∧
    doe - (365 * yoe + yoe / 4 - yoe / 100) ≤ 365 ∧
    (doe - (365 * yoe + yoe / 4 - yoe / 100) = 365 →
      (yoe + 1) % 4 = 0 ∧ ((yoe + 1) % 100 ≠ 0 ∨ (yoe + 1) % 400 = 0)) := by
  have h0 : 0 ≤ yoe := by omega
  have h399 : yoe ≤ 399 := by omega
  interval_cases yoe <;> omega

theorem doe_bounds (z : Int) : 0 ≤ cfdDoe z ∧ cfdDoe z ≤ 146096 := by
  unfold cfdDoe cfdEra; omega

theorem yoe_bounds (z : Int) : 0 ≤ cfdYoe z ∧ cfdYoe z ≤ 399 := by
  have h := doe_bounds z
  unfold cfdYoe; omega

theorem doy_facts (z : Int) :
    0 ≤ cfdDoy z ∧ cfdDoy z ≤ 365 ∧
    (cfdDoy z = 365 →
      (cfdYoe z + 1) % 4 = 0 ∧ ((cfdYoe z + 1) % 100 ≠ 0 ∨ (cfdYoe z + 1) % 400 = 0)) := by
  have h := doe_bounds z
  have := year_core (cfdDoe z) (cfdYoe z) h.1 h.2 rfl
  unfold cfdDoy
  exact this

theorem mp_facts (z : Int) :
    0 ≤ cfdMp z ∧ cfdMp z ≤ 11 ∧ 1 ≤ cfdDay z ∧
    (153 * cfdMp z + 2) / 5 + cfdDay z - 1 = cfdDoy z ∧
    cfdDay z ≤ 31 ∧
    (cfdMp z = 11 → cfdDay z ≤ 29) ∧ (cfdMp z = 11 → cfdDay z = 29 → cfdDoy z = 365) ∧
    ((cfdMp z = 1 ∨ cfdMp z = 3 ∨ cfdMp z = 6 ∨ cfdMp z = 8) → cfdDay z ≤ 30) := by
  have h := doy_facts z
  unfold cfdDay cfdMp
  omega

theorem civil_month_bounds (z : Int) : 1 ≤ cfdMonth z ∧ cfdMonth z ≤ 12 := by
  have h := mp_facts z
  unfold cfdMonth
  split <;> omega

theorem civil_day_valid (z : Int) :
    1 ≤ cfdDay z ∧ cfdDay z ≤ daysInMonth (cfdYear z) (cfdMonth z) := by
  have hmp := mp_facts z
  have hdoy := doy_facts z
  unfold daysInMonth cfdYear cfdMonth
  unfold cfdMonth at *
  split_ifs <;> omega

set_option maxHeartbeats 1000000 in
theorem civil_inv (z : Int) :
    daysFromCivil (cfdYear z) (cfdMonth z) (cfdDay z) = z := by
  obtain ⟨hy0, hy1⟩ := yoe_bounds z
  obtain ⟨hm0, hm1, -, -, -, -, -, -⟩ := mp_facts z
  have hde : cfdDoe z = z + 719468 - 146097 * cfdEra z := rfl
  have hdd : cfdDoy z = cfdDoe z - (365 * cfdYoe z + cfdYoe z / 4 - cfdYoe z / 100) := rfl
  have hday : cfdDay z = cfdDoy z - (153 * cfdMp z + 2) / 5 + 1 := rfl
  simp only [daysFromCivil, cfdYear, cfdMonth]
  split_ifs <;> omega

set_option maxHeartbeats 1000000 in
theorem civil_year_bounds (z : Int) (h1 : -719162 ≤ z) (h2 : z ≤ 2932896) :
    1 ≤ cfdYear z ∧ cfdYear z ≤ 9999 := by
  obtain ⟨hd0, hd1, -⟩ := doy_facts z
  obtain ⟨hy0, hy1⟩ := yoe_bounds z
  obtain ⟨he0, he1⟩ := doe_bounds z
  have hde : cfdDoe z = z + 719468 - 146097 * cfdEra z := rfl
  have hdd : cfdDoy z = cfdDoe z - (365 * cfdYoe z + cfdYoe z / 4 - cfdYoe z / 100) := rfl
  have hmpd : cfdMp z = (5 * cfdDoy z + 2) / 153 := rfl
  unfold cfdYear cfdMonth
  split_ifs <;> omega

/-! ## Machine integer wrap-around -/

/-- Two's-complement wrap-around at 32 bits, as Rust release-mode i32
arithmetic produces. -/
def wrap32 (x : Int) : Int := (x + 2 ^ 31) % 2 ^ 32 - 2 ^ 31

/-- Two's-complement wrap-around at 64 bits. -/
def wrap64 (x : Int) : Int := (x + 2 ^ 63) % 2 ^ 64 - 2 ^ 63

theorem wrap32_eq_of_bounded (x : Int) (h1 : -(2 ^ 31) ≤ x) (h2 : x < 2 ^ 31) :
    wrap32 x = x := by
  unfold wrap32; omega

theorem wrap64_eq_of_bounded (x : Int) (h1 : -(2 ^ 63) ≤ x) (h2 : x < 2 ^ 63) :
    wrap64 x = x := by
  unfold wrap64; omega

/-! ## Temporal types (src/qtype/chrono.rs)

Each type wraps one signed machine integer.  Rust assert! failures and parse
errors are both modelled as the function returning none. -/

/-- Wrapper for a day count since 2000-01-01 (src/qtype/chrono.rs, struct Date). -/
structure Date where
  days : Int
deriving DecidableEq

/-- Wrapper for nanoseconds since 2000-01-01T00:00:00 (struct Timestamp). -/
structure Timestamp where
  nanoseconds : Int
deriving DecidableEq

/-- Wrapper for a month count since 2000-01 (struct Month). -/
structure Month where
  months : Int
deriving DecidableEq

/-- Wrapper for a nanosecond duration (struct Timespan). -/
structure Timespan where
  nanoseconds : Int
deriving DecidableEq

/-- Wrapper for minutes since midnight (struct Minute). -/
structure Minute where
  minutes : Int
deriving DecidableEq

/-- Wrapper for seconds since midnight (struct Second). -/
structure Second where
  seconds : Int
deriving DecidableEq

namespace Date

/-- Date::MAX_DAYS (9999.12.31). -/
def MAX_DAYS : Int := 2921939

/-- Date::MIN_DAYS (0001.01.01). -/
def MIN_DAYS : Int := -730119

/-- Date::MAX. -/
def MAX : Date := ⟨MAX_DAYS⟩

/-- Date::MIN. -/
def MIN : Date := ⟨MIN_DAYS⟩

/-- Date::from_literal: chrono parse of "YYYY.MM.DD" (fixed-width canonical
form, with calendar validation as NaiveDate does), then the half-open
assert!((MIN_DAYS..MAX_DAYS).contains(&days)) modelled as a guard. -/
def from_literal (literal : List Char) : Option Date := do
  let (y, r1) ← takeFixed 4 literal
  let (m, r2) ← sepFixed '.' 2 r1
  let (d, r5) ← sepFixed '.' 2 r2
  if r5 = [] ∧ 1 ≤ m ∧ m ≤ 12 ∧ 1 ≤ d ∧ (d : Int) ≤ daysInMonth (y : Int) (m : Int) then
    let days := daysFromCivil (y : Int) (m : Int) (d : Int) - epochCivilDays
    if MIN_DAYS ≤ days ∧ days < MAX_DAYS then some ⟨days⟩ else none
  else none

/-- Date::to_literal: format the civil date as "YYYY.MM.DD" with zero
padding. -/
def to_literal (x : Date) : List Char :=
  let c := civilFromDays (x.days + epochCivilDays)
  fmtInt 4 c.1 ++ '.' :: (fmtInt 2 c.2.1 ++ '.' :: fmtInt 2 c.2.2)

/-- Date::from_i32 with its half-open assert!((MIN_DAYS..MAX_DAYS)...). -/
def from_i32 (days : Int) : Option Date :=
  if MIN_DAYS ≤ days ∧ days < MAX_DAYS then some ⟨days⟩ else none

/-- Date::to_i32. -/
def to_i32 (x : Date) : Int := x.days

/-- impl Add i32 for Date: plain i32 addition, no range check. -/
def add (x : Date) (rhs : Int) : Date := ⟨wrap32 (to_i32 x + rhs)⟩

/-- impl Sub i32 for Date: plain i32 subtraction, no range check. -/
def sub (x : Date) (rhs : Int) : Date := ⟨wrap32 (to_i32 x - rhs)⟩

end Date

namespace Timestamp

/-- Timestamp::MIN_NANO = -i64::MAX + 1. -/
def MIN_NANO : Int := -9223372036854775806

/-- Timestamp::MAX_NANO = i64::MAX - 1. -/
def MAX_NANO : Int := 9223372036854775806

/-- Timestamp::MIN. -/
def MIN : Timestamp := ⟨MIN_NANO⟩

/-- Timestamp::MAX. -/
def MAX : Timestamp := ⟨MAX_NANO⟩

/-- Timestamp::from_literal: chrono parse of
"YYYY.MM.DDDHH:MM:SS.nnnnnnnnn" (fixed-width canonical form with calendar and
time-of-day validation), then the half-open assert modelled as a guard. -/
def from_literal (literal : List Char) : Option Timestamp := do
  let (y, r1) ← takeFixed 4 literal
  let (mo, r2) ← sepFixed '.' 2 r1
  let (d, r3) ← sepFixed '.' 2 r2
  let (hh, r4) ← sepFixed 'D' 2 r3
  let (mi, r5) ← sepFixed ':' 2 r4
  let (ss, r6) ← sepFixed ':' 2 r5
  let (nano, r13) ← sepFixed '.' 9 r6
  if r13 = [] ∧ 1 ≤ mo ∧ mo ≤ 12 ∧ 1 ≤ d ∧ (d : Int) ≤ daysInMonth (y : Int) (mo : Int) ∧
      hh < 24 ∧ mi < 60 ∧ ss < 60 then
    let ns := (daysFromCivil (y : Int) (mo : Int) (d : Int) - epochCivilDays) * 86400000000000 +
      ((hh : Int) * 3600000000000 + (mi : Int) * 60000000000 + (ss : Int) * 1000000000 + (nano : Int))
    if MIN_NANO ≤ ns ∧ ns < MAX_NANO then some ⟨ns⟩ else none
  else none

/-- Timestamp::to_literal: split into days and time of day (chrono uses the
floor convention), format as "YYYY.MM.DDDHH:MM:SS.nnnnnnnnn". -/
def to_literal (x : Timestamp) : List Char :=
  let days := x.nanoseconds / 86400000000000
  let tod := x.nanoseconds % 86400000000000
  let c := civilFromDays (days + epochCivilDays)
  fmtInt 4 c.1 ++ '.' :: (fmtInt 2 c.2.1 ++ '.' :: (fmtInt 2 c.2.2 ++ 'D' ::
    (fmtInt 2 (tod / 3600000000000) ++ ':' :: (fmtInt 2 (tod % 3600000000000 / 60000000000) ++
      ':' :: (fmtInt 2 (tod % 60000000000 / 1000000000) ++ '.' :: fmtInt 9 (tod % 1000000000))))))

/-- Timestamp::to_i64. -/
def to_i64 (x : Timestamp) : Int := x.nanoseconds

/-- Timestamp::from_i64: no range check at all. -/
def from_i64 (nanoseconds : Int) : Timestamp := ⟨nanoseconds⟩

/-- impl Add i64 for Timestamp: plain i64 addition, no range check. -/
def add (x : Timestamp) (rhs : Int) : Timestamp := ⟨wrap64 (to_i64 x + rhs)⟩

/-- impl Sub i64 for Timestamp: plain i64 subtraction, no range check. -/
def sub (x : Timestamp) (rhs : Int) : Timestamp := ⟨wrap64 (to_i64 x - rhs)⟩

end Timestamp

namespace Month

/-- Month::MAX_MONTHS (9999.12). -/
def MAX_MONTHS : Int := 95999

/-- Month::MIN_MONTHS (0001.01). -/
def MIN_MONTHS : Int := -23988

/-- Month::MAX. -/
def MAX : Month := ⟨MAX_MONTHS⟩

/-- Month::MIN. -/
def MIN : Month := ⟨MIN_MONTHS⟩

/-- Month::from_literal: exactly 8 chars "YYYY.MMm", u32/i32 field parses,
month in 1..=12, then the closed assert modelled as a guard. -/
def from_literal (literal : List Char) : Option Month :=
  if literal.length = 8 ∧ literal.getLastD ' ' = 'm' ∧ literal.getD 4 ' ' = '.' then do
    let year ← parseNat (literal.take 4)
    let month ← parseInt ((literal.drop 5).take 2)
    if 1 ≤ month ∧ month ≤ 12 then
      if MIN_MONTHS ≤ ((year : Int) - 2000) * 12 + (month - 1) ∧
          ((year : Int) - 2000) * 12 + (month - 1) ≤ MAX_MONTHS then
        some ⟨((year : Int) - 2000) * 12 + (month - 1)⟩
      else none
    else none
  else none

/-- Month::to_literal: Rust i32 (truncating) division and remainder. -/
def to_literal (x : Month) : List Char :=
  let total_months := x.months + 2000 * 12
  fmtInt 4 (total_months.tdiv 12) ++ '.' :: (fmtInt 2 (total_months.tmod 12 + 1) ++ ['m'])

/-- Month::from_i32 with its closed assert. -/
def from_i32 (months : Int) : Option Month :=
  if MIN_MONTHS ≤ months ∧ months ≤ MAX_MONTHS then some ⟨months⟩ else none

/-- Month::to_i32. -/
def to_i32 (x : Month) : Int := x.months

/-- impl Add i32 for Month: plain i32 addition, no range check. -/
def add (x : Month) (rhs : Int) : Month := ⟨wrap32 (to_i32 x + rhs)⟩

/-- impl Sub i32 for Month: plain i32 subtraction, no range check. -/
def sub (x : Month) (rhs : Int) : Month := ⟨wrap32 (to_i32 x - rhs)⟩

end Month

namespace Timespan

/-- Timespan::MIN_NANO = -i64::MAX + 1. -/
def MIN_NANO : Int := -9223372036854775806

/-- Timespan::MAX_NANO = i64::MAX - 1. -/
def MAX_NANO : Int := 9223372036854775806

/-- Timespan::MIN. -/
def MIN : Timespan := ⟨MIN_NANO⟩

/-- Timespan::MAX. -/
def MAX : Timespan := ⟨MAX_NANO⟩

/-- Timespan::from_literal: the TIMESPAN_RE regex
(sign? digits+ then D then HH:MM:SS then an optional fraction of 1 to 9
digits), the i64 day parse, right-padding of the fraction to 9 digits, and
the closed assert modelled as a guard. -/
def from_literal (literal : List Char) : Option Timespan := do
  let neg := signNeg literal
  let rest := signRest literal
  let ds := rest.takeWhile isDigitChar
  let rest1 := rest.dropWhile isDigitChar
  if ds = [] then none else do
  let (hh, rest3) ← sepFixed 'D' 2 rest1
  let (mi, rest5) ← sepFixed ':' 2 rest3
  let (ss, rest7) ← sepFixed ':' 2 rest5
  let nanos ← parseFraction rest7
  let daysVal : Int := if neg then -(digitsVal ds : Int) else (digitsVal ds : Int)
  if -(2 ^ 63) ≤ daysVal ∧ daysVal < 2 ^ 63 then
    if MIN_NANO ≤ daysVal * 86400000000000 +
        ((hh : Int) * 3600000000000 + (mi : Int) * 60000000000 + (ss : Int) * 1000000000 +
          (nanos : Int)) ∧
        daysVal * 86400000000000 +
        ((hh : Int) * 3600000000000 + (mi : Int) * 60000000000 + (ss : Int) * 1000000000 +
          (nanos : Int)) ≤ MAX_NANO then
      some ⟨daysVal * 86400000000000 +
        ((hh : Int) * 3600000000000 + (mi : Int) * 60000000000 + (ss : Int) * 1000000000 +
          (nanos : Int))⟩
    else none
  else none

/-- Timespan::to_literal: sign and absolute value, then day/hour/minute/
second/nanosecond decomposition of the absolute value, day count unpadded. -/
def to_literal (x : Timespan) : List Char :=
  let a := x.nanoseconds.natAbs
  let days := a / 86400000000000
  let r1 := a % 86400000000000
  let hours := r1 / 3600000000000
  let r2 := r1 % 3600000000000
  let minutes := r2 / 60000000000
  let r3 := r2 % 60000000000
  let seconds := r3 / 1000000000
  let nanos := r3 % 1000000000
  (if x.nanoseconds < 0 then ['-'] else []) ++ natDecimal days ++ 'D' ::
    (fmtNat 2 hours ++ ':' :: (fmtNat 2 minutes ++ ':' :: (fmtNat 2 seconds ++ '.' :: fmtNat 9 nanos)))

/-- Timespan::to_i64. -/
def to_i64 (x : Timespan) : Int := x.nanoseconds

/-- Timespan::from_i64: no range check at all. -/
def from_i64 (nanoseconds : Int) : Timespan := ⟨nanoseconds⟩

end Timespan

namespace Minute

/-- Minute::MAX_MINUTES = i32::MAX - 1. -/
def MAX_MINUTES : Int := 2147483646

/-- Minute::MIN_MINUTES = -i32::MAX + 1. -/
def MIN_MINUTES : Int := -2147483646

/-- Minute::MAX. -/
def MAX : Minute := ⟨MAX_MINUTES⟩

/-- Minute::MIN. -/
def MIN : Minute := ⟨MIN_MINUTES⟩

/-- Minute::from_literal: exactly 5 chars with a colon at index 2, i32 field
parses, hours in 0..24 and minutes in 0..60, then the closed assert modelled
as a guard. -/
def from_literal (literal : List Char) : Option Minute :=
  if literal.length = 5 ∧ literal.getD 2 ' ' = ':' then do
    let hours ← parseInt (literal.take 2)
    let mins ← parseInt ((literal.drop 3).take 2)
    if 0 ≤ hours ∧ hours < 24 ∧ 0 ≤ mins ∧ mins < 60 then
      if MIN_MINUTES ≤ hours * 60 + mins ∧ hours * 60 + mins ≤ MAX_MINUTES then
        some ⟨hours * 60 + mins⟩
      else none
    else none
  else none

/-- Minute::to_literal: Rust i32 (truncating) division and remainder. -/
def to_literal (x : Minute) : List Char :=
  fmtInt 2 (x.minutes.tdiv 60) ++ ':' :: fmtInt 2 (x.minutes.tmod 60)

/-- Minute::from_i32 with its closed assert. -/
def from_i32 (minutes : Int) : Option Minute :=
  if MIN_MINUTES ≤ minutes ∧ minutes ≤ MAX_MINUTES then some ⟨minutes⟩ else none

/-- Minute::to_i32. -/
def to_i32 (x : Minute) : Int := x.minutes

end Minute

namespace Second

/-- Second::MAX_SECONDS = i32::MAX - 1. -/
def MAX_SECONDS : Int := 2147483646

/-- Second::MIN_SECONDS = -i32::MAX + 1. -/
def MIN_SECONDS : Int := -2147483646

/-- Second::MAX. -/
def MAX : Second := ⟨MAX_SECONDS⟩

/-- Second::MIN. -/
def MIN : Second := ⟨MIN_SECONDS⟩

/-- Second::from_literal: exactly 8 chars with colons at indexes 2 and 5,
i32 field parses, hour/minute/second range checks, then the closed assert
modelled as a guard. -/
def from_literal (literal : List Char) : Option Second :=
  if literal.length = 8 ∧ literal.getD 2 ' ' = ':' ∧ literal.getD 5 ' ' = ':' then do
    let hours ← parseInt (literal.take 2)
    let mins ← parseInt ((literal.drop 3).take 2)
    let secs ← parseInt ((literal.drop 6).take 2)
    if 0 ≤ hours ∧ hours < 24 ∧ 0 ≤ mins ∧ mins < 60 ∧ 0 ≤ secs ∧ secs < 60 then
      if MIN_SECONDS ≤ hours * 3600 + mins * 60 + secs ∧
          hours * 3600 + mins * 60 + secs ≤ MAX_SECONDS then
        some ⟨hours * 3600 + mins * 60 + secs⟩
      else none
    else none
  else none

/-- Second::to_literal: rem_euclid(86400) first, then truncating division
and remainder on the nonnegative result. -/
def to_literal (x : Second) : List Char :=
  let total_secs := x.seconds % 86400
  fmtInt 2 (total_secs.tdiv 3600) ++ ':' ::
    (fmtInt 2 ((total_secs.tmod 3600).tdiv 60) ++ ':' :: fmtInt 2 (total_secs.tmod 60))

/-- Second::from_i32 with its closed assert. -/
def from_i32 (seconds : Int) : Option Second :=
  if MIN_SECONDS ≤ seconds ∧ seconds ≤ MAX_SECONDS then some ⟨seconds⟩ else none

/-- Second::to_i32. -/
def to_i32 (x : Second) : Int := x.seconds

end Second

/-! ## Round-trip helper lemmas -/

theorem fmtInt_nonneg (w : Nat) (x : Int) (h : 0 ≤ x) : fmtInt w x = fmtNat w x.natAbs := by
  unfold fmtInt fmtNat
  rw [if_neg (not_lt.2 h)]

theorem getD_append_len (a : List Char) (c : Char) (b : List Char) (n : Nat)
    (h : a.length = n) (d : Char) : (a ++ c :: b).getD n d = c := by
  subst h
  induction a with
  | nil => rfl
  | cons x t ih => simpa [List.getD] using ih

theorem take_append_len (a b : List Char) (n : Nat) (h : a.length = n) :
    (a ++ b).take n = a := by
  subst h
  exact List.take_left a b

theorem drop_append_len (a b : List Char) (n : Nat) (h : a.length = n) :
    (a ++ b).drop n = b := by
  subst h
  exact List.drop_left a b

theorem parseInt_fmtNat (w n : Nat) (h1 : 1 ≤ w) (h2 : n < 10 ^ w) :
    parseInt (fmtNat w n) = some (n : Int) := by
  have hs := fmtNat_spec w n h1 h2
  rw [parseInt_digits _ (by intro hnil; rw [hnil] at hs; simp at hs; omega) hs.2.1, hs.2.2]

theorem parseNat_fmtNat (w n : Nat) (h1 : 1 ≤ w) (h2 : n < 10 ^ w) :
    parseNat (fmtNat w n) = some n := by
  have hs := fmtNat_spec w n h1 h2
  rw [parseNat_digits _ (by intro hnil; rw [hnil] at hs; simp at hs; omega) hs.2.1, hs.2.2]

theorem expectChar_cons_self (c : Char) (t : List Char) : expectChar c (c :: t) = some t := by
  simp [expectChar]

theorem sepFixed_exact (c : Char) (k : Nat) (s r : List Char) (h1 : s.length = k)
    (h2 : s.all isDigitChar = true) : sepFixed c k (c :: (s ++ r)) = some (digitsVal s, r) := by
  rw [sepFixed, expectChar_cons_self]
  exact takeFixed_exact k s r h1 h2

theorem sepFixed_exact_nil (c : Char) (k : Nat) (s : List Char) (h1 : s.length = k)
    (h2 : s.all isDigitChar = true) : sepFixed c k (c :: s) = some (digitsVal s, []) := by
  have := sepFixed_exact c k s [] h1 h2
  simpa using this

theorem takeWhile_append_stop (p : Char → Bool) (a : List Char) (c : Char) (b : List Char)
    (ha : a.all p = true) (hc : p c = false) :
    (a ++ c :: b).takeWhile p = a ∧ (a ++ c :: b).dropWhile p = c :: b := by
  induction a with
  | nil => simp [List.takeWhile_cons, List.dropWhile_cons, hc]
  | cons x t ih =>
    simp only [List.all_cons, Bool.and_eq_true] at ha
    have := ih ha.2
    simp [List.takeWhile_cons, List.dropWhile_cons, ha.1, this.1, this.2]

theorem minute_round_trip (x : Minute) (h1 : 0 ≤ x.minutes) (h2 : x.minutes ≤ 1439) :
    Minute.from_literal (Minute.to_literal x) = some x := by
  obtain ⟨m⟩ := x
  simp only at h1 h2
  have htd : m.tdiv 60 = m / 60 := Int.tdiv_eq_ediv h1 (by norm_num)
  have htm : m.tmod 60 = m % 60 := Int.tmod_eq_emod h1 (by norm_num)
  have hdb : 0 ≤ m / 60 ∧ m / 60 ≤ 23 ∧ 0 ≤ m % 60 ∧ m % 60 ≤ 59 := by omega
  have hna : ((m / 60).natAbs : Int) = m / 60 := Int.natAbs_of_nonneg hdb.1
  have hnb : ((m % 60).natAbs : Int) = m % 60 := Int.natAbs_of_nonneg hdb.2.2.1
  have hfa := fmtNat_spec 2 (m / 60).natAbs (by norm_num) (by omega)
  have hfb := fmtNat_spec 2 (m % 60).natAbs (by norm_num) (by omega)
  rw [Minute.to_literal, htd, htm, fmtInt_nonneg _ _ hdb.1, fmtInt_nonneg _ _ hdb.2.2.1,
    Minute.from_literal]
  rw [if_pos (by
    refine ⟨?_, getD_append_len _ _ _ _ hfa.1 _⟩
    simp only [List.length_append, List.length_cons, hfa.1, hfb.1])]
  rw [take_append_len _ _ 2 hfa.1,
    show (fmtNat 2 (m / 60).natAbs ++ ':' :: fmtNat 2 (m % 60).natAbs).drop 3 =
      fmtNat 2 (m % 60).natAbs by
        rw [show (fmtNat 2 (m / 60).natAbs ++ ':' :: fmtNat 2 (m % 60).natAbs) =
          (fmtNat 2 (m / 60).natAbs ++ [':']) ++ fmtNat 2 (m % 60).natAbs by simp,
          drop_append_len _ _ 3 (by simp [hfa.1])]]
  rw [show (fmtNat 2 (m % 60).natAbs).take 2 = fmtNat 2 (m % 60).natAbs by
    rw [← List.append_nil (fmtNat 2 (m % 60).natAbs), take_append_len _ _ 2 hfb.1]; simp]
  rw [parseInt_fmtNat 2 _ (by norm_num) (by omega), parseInt_fmtNat 2 _ (by norm_num) (by omega)]
  simp only [Option.bind_eq_bind, Option.some_bind]
  rw [if_pos (by omega)]
  rw [if_pos (by unfold Minute.MIN_MINUTES Minute.MAX_MINUTES; omega)]
  exact congrArg some (congrArg Minute.mk (by omega))

theorem second_round_trip (x : Second) (h1 : 0 ≤ x.seconds) (h2 : x.seconds ≤ 86399) :
    Second.from_literal (Second.to_literal x) = some x := by
  obtain ⟨m⟩ := x
  simp only at h1 h2
  have hem : m % 86400 = m := by omega
  have ht1 : (m % 86400).tdiv 3600 = m / 3600 := by
    rw [hem]; exact Int.tdiv_eq_ediv h1 (by norm_num)
  have ht2 : ((m % 86400).tmod 3600).tdiv 60 = m % 3600 / 60 := by
    rw [hem, Int.tmod_eq_emod h1 (by norm_num)]
    exact Int.tdiv_eq_ediv (by omega) (by norm_num)
  have ht3 : (m % 86400).tmod 60 = m % 60 := by
    rw [hem]; exact Int.tmod_eq_emod h1 (by norm_num)
  have hdb : 0 ≤ m / 3600 ∧ m / 3600 ≤ 23 ∧ 0 ≤ m % 3600 / 60 ∧ m % 3600 / 60 ≤ 59 ∧
      0 ≤ m % 60 ∧ m % 60 ≤ 59 := by omega
  have hfa := fmtNat_spec 2 (m / 3600).natAbs (by norm_num) (by omega)
  have hfb := fmtNat_spec 2 (m % 3600 / 60).natAbs (by norm_num) (by omega)
  have hfc := fmtNat_spec 2 (m % 60).natAbs (by norm_num) (by omega)
  have hna : ((m / 3600).natAbs : Int) = m / 3600 := Int.natAbs_of_nonneg hdb.1
  have hnb : ((m % 3600 / 60).natAbs : Int) = m % 3600 / 60 := Int.natAbs_of_nonneg hdb.2.2.1
  have hnc : ((m % 60).natAbs : Int) = m % 60 := Int.natAbs_of_nonneg hdb.2.2.2.2.1
  simp only [Second.to_literal]
  rw [ht1, ht2, ht3, fmtInt_nonneg _ _ hdb.1, fmtInt_nonneg _ _ hdb.2.2.1,
    fmtInt_nonneg _ _ hdb.2.2.2.2.1, Second.from_literal]
  have hshape : fmtNat 2 (m / 3600).natAbs ++ ':' ::
      (fmtNat 2 (m % 3600 / 60).natAbs ++ ':' :: fmtNat 2 (m % 60).natAbs) =
      (fmtNat 2 (m / 3600).natAbs ++ ':' :: fmtNat 2 (m % 3600 / 60).natAbs ++ [':']) ++
        fmtNat 2 (m % 60).natAbs := by simp
  rw [if_pos (by
    refine ⟨?_, getD_append_len _ _ _ _ hfa.1 _, ?_⟩
    · simp only [List.length_append, List.length_cons, hfa.1, hfb.1, hfc.1]
    · rw [show fmtNat 2 (m / 3600).natAbs ++ ':' ::
          (fmtNat 2 (m % 3600 / 60).natAbs ++ ':' :: fmtNat 2 (m % 60).natAbs) =
        (fmtNat 2 (m / 3600).natAbs ++ ':' :: fmtNat 2 (m % 3600 / 60).natAbs) ++ ':' ::
          fmtNat 2 (m % 60).natAbs by simp]
      exact getD_append_len _ ':' _ 5
        (by simp only [List.length_append, List.length_cons, hfa.1, hfb.1]) ' ')]
  rw [take_append_len _ _ 2 hfa.1]
  rw [show (fmtNat 2 (m / 3600).natAbs ++ ':' ::
      (fmtNat 2 (m % 3600 / 60).natAbs ++ ':' :: fmtNat 2 (m % 60).natAbs)).drop 3 =
      fmtNat 2 (m % 3600 / 60).natAbs ++ ':' :: fmtNat 2 (m % 60).natAbs by
    rw [show fmtNat 2 (m / 3600).natAbs ++ ':' ::
        (fmtNat 2 (m % 3600 / 60).natAbs ++ ':' :: fmtNat 2 (m % 60).natAbs) =
      (fmtNat 2 (m / 3600).natAbs ++ [':']) ++
        (fmtNat 2 (m % 3600 / 60).natAbs ++ ':' :: fmtNat 2 (m % 60).natAbs) by simp,
      drop_append_len _ _ 3 (by simp [hfa.1])]]
  rw [take_append_len _ _ 2 hfb.1]
  rw [show (fmtNat 2 (m / 3600).natAbs ++ ':' ::
      (fmtNat 2 (m % 3600 / 60).natAbs ++ ':' :: fmtNat 2 (m % 60).natAbs)).drop 6 =
      fmtNat 2 (m % 60).natAbs by
    rw [show fmtNat 2 (m / 3600).natAbs ++ ':' ::
        (fmtNat 2 (m % 3600 / 60).natAbs ++ ':' :: fmtNat 2 (m % 60).natAbs) =
      (fmtNat 2 (m / 3600).natAbs ++ ':' :: fmtNat 2 (m % 3600 / 60).natAbs ++ [':']) ++
        fmtNat 2 (m % 60).natAbs by simp,
      drop_append_len _ _ 6 (by simp [hfa.1, hfb.1])]]
  rw [show (fmtNat 2 (m % 60).natAbs).take 2 = fmtNat 2 (m % 60).natAbs by
    rw [← List.append_nil (fmtNat 2 (m % 60).natAbs), take_append_len _ _ 2 hfc.1]; simp]
  rw [parseInt_fmtNat 2 _ (by norm_num) (by omega), parseInt_fmtNat 2 _ (by norm_num) (by omega),
    parseInt_fmtNat 2 _ (by norm_num) (by omega)]
  simp only [Option.bind_eq_bind, Option.some_bind]
  rw [if_pos (by omega)]
  rw [if_pos (by unfold Second.MIN_SECONDS Second.MAX_SECONDS; omega)]
  exact congrArg some (congrArg Second.mk (by omega))

theorem month_round_trip (x : Month) (h1 : Month.MIN_MONTHS ≤ x.months)
    (h2 : x.months ≤ Month.MAX_MONTHS) :
    Month.from_literal (Month.to_literal x) = some x := by
  obtain ⟨m⟩ := x
  simp only [Month.MIN_MONTHS, Month.MAX_MONTHS] at h1 h2
  have htot : 12 ≤ m + 24000 ∧ m + 24000 ≤ 119999 := by omega
  have htd : (m + 24000).tdiv 12 = (m + 24000) / 12 :=
    Int.tdiv_eq_ediv (by omega) (by norm_num)
  have htm : (m + 24000).tmod 12 = (m + 24000) % 12 :=
    Int.tmod_eq_emod (by omega) (by norm_num)
  have hyb : 1 ≤ (m + 24000) / 12 ∧ (m + 24000) / 12 ≤ 9999 ∧
      1 ≤ (m + 24000) % 12 + 1 ∧ (m + 24000) % 12 + 1 ≤ 12 := by omega
  have hna : (((m + 24000) / 12).natAbs : Int) = (m + 24000) / 12 :=
    Int.natAbs_of_nonneg (by omega)
  have hnb : (((m + 24000) % 12 + 1).natAbs : Int) = (m + 24000) % 12 + 1 :=
    Int.natAbs_of_nonneg (by omega)
  have hfa := fmtNat_spec 4 ((m + 24000) / 12).natAbs (by norm_num) (by omega)
  have hfb := fmtNat_spec 2 ((m + 24000) % 12 + 1).natAbs (by norm_num) (by omega)
  simp only [Month.to_literal, show (2000 : Int) * 12 = 24000 from by norm_num]
  rw [htd, htm, fmtInt_nonneg _ _ (by omega), fmtInt_nonneg _ _ (by omega), Month.from_literal]
  have hshape : fmtNat 4 ((m + 24000) / 12).natAbs ++ '.' ::
      (fmtNat 2 ((m + 24000) % 12 + 1).natAbs ++ ['m']) =
      (fmtNat 4 ((m + 24000) / 12).natAbs ++ '.' ::
        fmtNat 2 ((m + 24000) % 12 + 1).natAbs) ++ ['m'] := by simp
  rw [if_pos (by
    refine ⟨?_, ?_, getD_append_len _ _ _ _ hfa.1 _⟩
    · simp only [List.length_append, List.length_cons, List.length_nil, hfa.1, hfb.1]
    · rw [hshape]
      have : (fmtNat 4 ((m + 24000) / 12).natAbs ++ '.' ::
          fmtNat 2 ((m + 24000) % 12 + 1).natAbs).length = 7 := by
        simp only [List.length_append, List.length_cons, hfa.1, hfb.1]
      rw [List.getLastD_concat])]
  rw [take_append_len _ _ 4 hfa.1]
  rw [show (fmtNat 4 ((m + 24000) / 12).natAbs ++ '.' ::
      (fmtNat 2 ((m + 24000) % 12 + 1).natAbs ++ ['m'])).drop 5 =
      fmtNat 2 ((m + 24000) % 12 + 1).natAbs ++ ['m'] by
    rw [show fmtNat 4 ((m + 24000) / 12).natAbs ++ '.' ::
        (fmtNat 2 ((m + 24000) % 12 + 1).natAbs ++ ['m']) =
      (fmtNat 4 ((m + 24000) / 12).natAbs ++ ['.']) ++
        (fmtNat 2 ((m + 24000) % 12 + 1).natAbs ++ ['m']) by simp,
      drop_append_len _ _ 5 (by simp [hfa.1])]]
  rw [take_append_len _ _ 2 hfb.1]
  rw [parseNat_fmtNat 4 _ (by norm_num) (by omega), parseInt_fmtNat 2 _ (by norm_num) (by omega)]
  simp only [Option.bind_eq_bind, Option.some_bind]
  rw [if_pos (by omega)]
  rw [if_pos (by unfold Month.MIN_MONTHS Month.MAX_MONTHS; omega)]
  exact congrArg some (congrArg Month.mk (by omega))

theorem epochCivilDays_eq : epochCivilDays = 10957 := by decide

theorem date_round_trip (x : Date) (h1 : Date.MIN_DAYS ≤ x.days) (h2 : x.days < Date.MAX_DAYS) :
    Date.from_literal (Date.to_literal x) = some x := by
  obtain ⟨dv⟩ := x
  simp only [Date.MIN_DAYS, Date.MAX_DAYS] at h1 h2
  have hz1 : -719162 ≤ dv + epochCivilDays := by rw [epochCivilDays_eq]; omega
  have hz2 : dv + epochCivilDays ≤ 2932896 := by rw [epochCivilDays_eq]; omega
  have hyr := civil_year_bounds (dv + epochCivilDays) hz1 hz2
  have hmo := civil_month_bounds (dv + epochCivilDays)
  have hdd := civil_day_valid (dv + epochCivilDays)
  obtain ⟨-, -, -, -, hd31, -, -, -⟩ := mp_facts (dv + epochCivilDays)
  have hiv := civil_inv (dv + epochCivilDays)
  have hny : ((cfdYear (dv + epochCivilDays)).natAbs : Int) = cfdYear (dv + epochCivilDays) :=
    Int.natAbs_of_nonneg (by omega)
  have hnm : ((cfdMonth (dv + epochCivilDays)).natAbs : Int) = cfdMonth (dv + epochCivilDays) :=
    Int.natAbs_of_nonneg (by omega)
  have hnd : ((cfdDay (dv + epochCivilDays)).natAbs : Int) = cfdDay (dv + epochCivilDays) :=
    Int.natAbs_of_nonneg (by omega)
  have hfy := fmtNat_spec 4 (cfdYear (dv + epochCivilDays)).natAbs (by norm_num) (by omega)
  have hfm := fmtNat_spec 2 (cfdMonth (dv + epochCivilDays)).natAbs (by norm_num) (by omega)
  have hfd := fmtNat_spec 2 (cfdDay (dv + epochCivilDays)).natAbs (by norm_num) (by omega)
  simp only [Date.to_literal, civilFromDays]
  rw [fmtInt_nonneg _ _ (by omega), fmtInt_nonneg _ _ (by omega), fmtInt_nonneg _ _ (by omega),
    Date.from_literal]
  rw [takeFixed_exact 4 _ _ hfy.1 hfy.2.1]
  simp only [Option.bind_eq_bind, Option.some_bind]
  rw [sepFixed_exact '.' 2 _ _ hfm.1 hfm.2.1]
  simp only [Option.bind_eq_bind, Option.some_bind]
  rw [sepFixed_exact_nil '.' 2 _ hfd.1 hfd.2.1]
  simp only [Option.bind_eq_bind, Option.some_bind]
  rw [hfy.2.2, hfm.2.2, hfd.2.2]
  rw [if_pos (by
    refine ⟨trivial, by omega, by omega, by omega, ?_⟩
    rw [hnd, hny, hnm]
    exact hdd.2)]
  rw [hny, hnm, hnd, hiv]
  rw [if_pos (by unfold Date.MIN_DAYS Date.MAX_DAYS; omega)]
  exact congrArg some (congrArg Date.mk (by omega))

theorem timestamp_round_trip (x : Timestamp) (h1 : Timestamp.MIN_NANO ≤ x.nanoseconds)
    (h2 : x.nanoseconds < Timestamp.MAX_NANO) :
    Timestamp.from_literal (Timestamp.to_literal x) = some x := by
  obtain ⟨ns⟩ := x
  simp only [Timestamp.MIN_NANO, Timestamp.MAX_NANO] at h1 h2
  have hdays : -106752 ≤ ns / 86400000000000 ∧ ns / 86400000000000 ≤ 106751 := by omega
  have htod : 0 ≤ ns % 86400000000000 ∧ ns % 86400000000000 < 86400000000000 := by omega
  have hz1 : -719162 ≤ ns / 86400000000000 + epochCivilDays := by rw [epochCivilDays_eq]; omega
  have hz2 : ns / 86400000000000 + epochCivilDays ≤ 2932896 := by rw [epochCivilDays_eq]; omega
  have hyr := civil_year_bounds (ns / 86400000000000 + epochCivilDays) hz1 hz2
  have hmo := civil_month_bounds (ns / 86400000000000 + epochCivilDays)
  have hdd := civil_day_valid (ns / 86400000000000 + epochCivilDays)
  obtain ⟨-, -, -, -, hd31, -, -, -⟩ := mp_facts (ns / 86400000000000 + epochCivilDays)
  have hiv := civil_inv (ns / 86400000000000 + epochCivilDays)
  have hny : ((cfdYear (ns / 86400000000000 + epochCivilDays)).natAbs : Int) =
      cfdYear (ns / 86400000000000 + epochCivilDays) := Int.natAbs_of_nonneg (by omega)
  have hnm : ((cfdMonth (ns / 86400000000000 + epochCivilDays)).natAbs : Int) =
      cfdMonth (ns / 86400000000000 + epochCivilDays) := Int.natAbs_of_nonneg (by omega)
  have hnd : ((cfdDay (ns / 86400000000000 + epochCivilDays)).natAbs : Int) =
      cfdDay (ns / 86400000000000 + epochCivilDays) := Int.natAbs_of_nonneg (by omega)
  have hth : 0 ≤ ns % 86400000000000 / 3600000000000 ∧
      ns % 86400000000000 / 3600000000000 ≤ 23 := by omega
  have htm2 : 0 ≤ ns % 86400000000000 % 3600000000000 / 60000000000 ∧
      ns % 86400000000000 % 3600000000000 / 60000000000 ≤ 59 := by omega
  have hts : 0 ≤ ns % 86400000000000 % 60000000000 / 1000000000 ∧
      ns % 86400000000000 % 60000000000 / 1000000000 ≤ 59 := by omega
  have htn : 0 ≤ ns % 86400000000000 % 1000000000 ∧
      ns % 86400000000000 % 1000000000 ≤ 999999999 := by omega
  have hnh : ((ns % 86400000000000 / 3600000000000).natAbs : Int) =
      ns % 86400000000000 / 3600000000000 := Int.natAbs_of_nonneg hth.1
  have hnm2 : ((ns % 86400000000000 % 3600000000000 / 60000000000).natAbs : Int) =
      ns % 86400000000000 % 3600000000000 / 60000000000 := Int.natAbs_of_nonneg htm2.1
  have hns : ((ns % 86400000000000 % 60000000000 / 1000000000).natAbs : Int) =
      ns % 86400000000000 % 60000000000 / 1000000000 := Int.natAbs_of_nonneg hts.1
  have hnn : ((ns % 86400000000000 % 1000000000).natAbs : Int) =
      ns % 86400000000000 % 1000000000 := Int.natAbs_of_nonneg htn.1
  have hfy := fmtNat_spec 4 (cfdYear (ns / 86400000000000 + epochCivilDays)).natAbs
    (by norm_num) (by omega)
  have hfm := fmtNat_spec 2 (cfdMonth (ns / 86400000000000 + epochCivilDays)).natAbs
    (by norm_num) (by omega)
  have hfd := fmtNat_spec 2 (cfdDay (ns / 86400000000000 + epochCivilDays)).natAbs
    (by norm_num) (by omega)
  have hfh := fmtNat_spec 2 (ns % 86400000000000 / 3600000000000).natAbs (by norm_num) (by omega)
  have hfmi := fmtNat_spec 2 (ns % 86400000000000 % 3600000000000 / 60000000000).natAbs
    (by norm_num) (by omega)
  have hfs := fmtNat_spec 2 (ns % 86400000000000 % 60000000000 / 1000000000).natAbs
    (by norm_num) (by omega)
  have hfn := fmtNat_spec 9 (ns % 86400000000000 % 1000000000).natAbs (by norm_num) (by omega)
  simp only [Timestamp.to_literal, civilFromDays]
  rw [fmtInt_nonneg _ _ (by omega), fmtInt_nonneg _ _ (by omega), fmtInt_nonneg _ _ (by omega),
    fmtInt_nonneg _ _ hth.1, fmtInt_nonneg _ _ htm2.1, fmtInt_nonneg _ _ hts.1,
    fmtInt_nonneg _ _ htn.1, Timestamp.from_literal]
  rw [takeFixed_exact 4 _ _ hfy.1 hfy.2.1]
  simp only [Option.bind_eq_bind, Option.some_bind]
  rw [sepFixed_exact '.' 2 _ _ hfm.1 hfm.2.1]
  simp only [Option.bind_eq_bind, Option.some_bind]
  rw [sepFixed_exact '.' 2 _ _ hfd.1 hfd.2.1]
  simp only [Option.bind_eq_bind, Option.some_bind]
  rw [sepFixed_exact 'D' 2 _ _ hfh.1 hfh.2.1]
  simp only [Option.bind_eq_bind, Option.some_bind]
  rw [sepFixed_exact ':' 2 _ _ hfmi.1 hfmi.2.1]
  simp only [Option.bind_eq_bind, Option.some_bind]
  rw [sepFixed_exact ':' 2 _ _ hfs.1 hfs.2.1]
  simp only [Option.bind_eq_bind, Option.some_bind]
  rw [sepFixed_exact_nil '.' 9 _ hfn.1 hfn.2.1]
  simp only [Option.bind_eq_bind, Option.some_bind]
  rw [hfy.2.2, hfm.2.2, hfd.2.2, hfh.2.2, hfmi.2.2, hfs.2.2, hfn.2.2]
  rw [if_pos (by
    refine ⟨trivial, by omega, by omega, by omega, ?_, by omega, by omega, by omega⟩
    rw [hnd, hny, hnm]
    exact hdd.2)]
  rw [hny, hnm, hnd, hiv]
  rw [if_pos (by unfold Timestamp.MIN_NANO Timestamp.MAX_NANO; omega)]
  exact congrArg some (congrArg Timestamp.mk (by omega))

theorem signNeg_minus (t : List Char) : signNeg ('-' :: t) = true := rfl

theorem signRest_minus (t : List Char) : signRest ('-' :: t) = t := rfl

theorem signNeg_not_minus (c : Char) (t : List Char) (h : c ≠ '-') :
    signNeg (c :: t) = false := by
  rw [signNeg.eq_def]
  split
  · rename_i heq; rw [List.cons.injEq] at heq; exact absurd heq.1 h
  · rfl

theorem signRest_not_minus (c : Char) (t : List Char) (h : c ≠ '-') :
    signRest (c :: t) = c :: t := by
  rw [signRest.eq_def]
  split
  · rename_i heq; rw [List.cons.injEq] at heq; exact absurd heq.1 h
  · rfl

theorem signNeg_digits (a b : List Char) (ha : a.all isDigitChar = true) (hne : a ≠ []) :
    signNeg (a ++ b) = false := by
  cases a with
  | nil => exact absurd rfl hne
  | cons c t =>
    simp only [List.all_cons, Bool.and_eq_true] at ha
    rw [List.cons_append]
    exact signNeg_not_minus c (t ++ b) (by
      intro hc; rw [hc] at ha; simp [isDigitChar] at ha)

theorem signRest_digits (a b : List Char) (ha : a.all isDigitChar = true) (hne : a ≠ []) :
    signRest (a ++ b) = a ++ b := by
  cases a with
  | nil => exact absurd rfl hne
  | cons c t =>
    simp only [List.all_cons, Bool.and_eq_true] at ha
    rw [List.cons_append]
    exact signRest_not_minus c (t ++ b) (by
      intro hc; rw [hc] at ha; simp [isDigitChar] at ha)

theorem parseFraction_dot (fr : List Char) (h1 : fr ≠ []) (h2 : fr.length ≤ 9)
    (h3 : fr.all isDigitChar = true) :
    parseFraction ('.' :: fr) = some (digitsVal (fr ++ List.replicate (9 - fr.length) '0')) := by
  simp only [parseFraction]
  rw [if_pos ⟨h1, h2, h3⟩]

/-- Parsing a sign-free timespan literal with a digit day field and fixed-width
hour, minute, second and 9-digit fraction fields yields the assembled value,
guarded by the i64 bound and the range assert. -/
theorem from_literal_fields (d h m s f : List Char)
    (hdca : d.all isDigitChar = true) (hdn : d ≠ [])
    (hhl : h.length = 2) (hha : h.all isDigitChar = true)
    (hml : m.length = 2) (hma : m.all isDigitChar = true)
    (hsl : s.length = 2) (hsa : s.all isDigitChar = true)
    (hfl : f.length = 9) (hfa : f.all isDigitChar = true) :
    Timespan.from_literal (d ++ 'D' :: (h ++ ':' :: (m ++ ':' :: (s ++ '.' :: f)))) =
      (if -(2 ^ 63) ≤ (digitsVal d : Int) ∧ (digitsVal d : Int) < 2 ^ 63 then
        if Timespan.MIN_NANO ≤ (digitsVal d : Int) * 86400000000000 +
            ((digitsVal h : Int) * 3600000000000 + (digitsVal m : Int) * 60000000000 +
              (digitsVal s : Int) * 1000000000 + (digitsVal f : Int)) ∧
            (digitsVal d : Int) * 86400000000000 +
            ((digitsVal h : Int) * 3600000000000 + (digitsVal m : Int) * 60000000000 +
              (digitsVal s : Int) * 1000000000 + (digitsVal f : Int)) ≤ Timespan.MAX_NANO then
          some ⟨(digitsVal d : Int) * 86400000000000 +
            ((digitsVal h : Int) * 3600000000000 + (digitsVal m : Int) * 60000000000 +
              (digitsVal s : Int) * 1000000000 + (digitsVal f : Int))⟩
        else none
      else none) := by
  simp only [Timespan.from_literal]
  rw [signNeg_digits _ _ hdca hdn, signRest_digits _ _ hdca hdn]
  have htw := takeWhile_append_stop isDigitChar d 'D'
    (h ++ ':' :: (m ++ ':' :: (s ++ '.' :: f))) hdca (by decide)
  rw [htw.1, htw.2]
  rw [if_neg (by simpa using hdn)]
  rw [sepFixed_exact 'D' 2 _ _ hhl hha]
  simp only [Option.bind_eq_bind, Option.some_bind]
  rw [sepFixed_exact ':' 2 _ _ hml hma]
  simp only [Option.bind_eq_bind, Option.some_bind]
  rw [sepFixed_exact ':' 2 _ _ hsl hsa]
  simp only [Option.bind_eq_bind, Option.some_bind]
  rw [parseFraction_dot _ (by intro hnil; rw [hnil] at hfl; simp at hfl)
    (by rw [hfl]) hfa]
  rw [hfl]
  simp only [Nat.sub_self, List.replicate_zero, List.append_nil]
  rw [Option.some_bind]
  simp only [Bool.false_eq_true, if_false]

theorem timespan_round_trip_nonneg (x : Timespan) (h1 : 0 ≤ x.nanoseconds)
    (h2 : x.nanoseconds ≤ Timespan.MAX_NANO) :
    Timespan.from_literal (Timespan.to_literal x) = some x := by
  obtain ⟨ns⟩ := x
  replace h1 : (0 : Int) ≤ ns := h1
  simp only [Timespan.MAX_NANO] at h2
  replace h2 : ns ≤ 9223372036854775806 := h2
  have hna : (ns.natAbs : Int) = ns := Int.natAbs_of_nonneg h1
  have hd : ns.natAbs / 86400000000000 ≤ 106751 := by omega
  have hcomp : ns.natAbs % 86400000000000 / 3600000000000 < 24 ∧
      ns.natAbs % 86400000000000 % 3600000000000 / 60000000000 < 60 ∧
      ns.natAbs % 86400000000000 % 3600000000000 % 60000000000 / 1000000000 < 60 ∧
      ns.natAbs % 86400000000000 % 3600000000000 % 60000000000 % 1000000000 < 1000000000 := by omega
  have hdd := natDecimal_spec (ns.natAbs / 86400000000000)
  have hfh := fmtNat_spec 2 (ns.natAbs % 86400000000000 / 3600000000000) (by norm_num) (by omega)
  have hfm := fmtNat_spec 2 (ns.natAbs % 86400000000000 % 3600000000000 / 60000000000)
    (by norm_num) (by omega)
  have hfs := fmtNat_spec 2 (ns.natAbs % 86400000000000 % 3600000000000 % 60000000000 / 1000000000)
    (by norm_num) (by omega)
  have hfn := fmtNat_spec 9 (ns.natAbs % 86400000000000 % 3600000000000 % 60000000000 % 1000000000)
    (by norm_num) (by omega)
  have hdne : natDecimal (ns.natAbs / 86400000000000) ≠ [] := by
    intro hnil; rw [hnil] at hdd; simp at hdd
  simp only [Timespan.to_literal]
  rw [if_neg (not_lt.2 h1), List.nil_append]
  rw [from_literal_fields _ _ _ _ _ hdd.2.1 hdne hfh.1 hfh.2.1 hfm.1 hfm.2.1
    hfs.1 hfs.2.1 hfn.1 hfn.2.1]
  rw [hdd.1, hfh.2.2, hfm.2.2, hfs.2.2, hfn.2.2]
  rw [if_pos (by omega)]
  rw [if_pos (by unfold Timespan.MIN_NANO Timespan.MAX_NANO; omega)]
  exact congrArg some (congrArg Timespan.mk (by omega))

theorem timespan_round_trip_negday (x : Timespan) (h1 : Timespan.MIN_NANO ≤ x.nanoseconds)
    (h2 : x.nanoseconds < 0) (h3 : (86400000000000 : Int) ∣ x.nanoseconds) :
    Timespan.from_literal (Timespan.to_literal x) = some x := by
  obtain ⟨ns⟩ := x
  simp only [Timespan.MIN_NANO] at h1
  replace h1 : (-9223372036854775806 : Int) ≤ ns := h1
  replace h2 : ns < 0 := h2
  replace h3 : (86400000000000 : Int) ∣ ns := h3
  obtain ⟨c, hc⟩ := h3
  have hck : ns.natAbs = 86400000000000 * (-c).toNat := by omega
  have hkb : 1 ≤ (-c).toNat ∧ (-c).toNat ≤ 106751 := by omega
  have hdivs : ns.natAbs / 86400000000000 = (-c).toNat ∧ ns.natAbs % 86400000000000 = 0 := by
    omega
  have hdd := natDecimal_spec ((-c).toNat)
  have hdne : natDecimal ((-c).toNat) ≠ [] := by
    intro hnil; rw [hnil] at hdd; simp at hdd
  have hf0 := fmtNat_spec 2 0 (by norm_num) (by norm_num)
  have hf90 := fmtNat_spec 9 0 (by norm_num) (by norm_num)
  simp only [Timespan.to_literal]
  rw [if_pos h2, hdivs.1, hdivs.2]
  simp only [Nat.zero_div, Nat.zero_mod, List.cons_append, List.nil_append]
  simp only [Timespan.from_literal]
  rw [signNeg_minus, signRest_minus]
  have htw := takeWhile_append_stop isDigitChar (natDecimal ((-c).toNat)) 'D'
    (fmtNat 2 0 ++ ':' :: (fmtNat 2 0 ++ ':' :: (fmtNat 2 0 ++ '.' :: fmtNat 9 0)))
    hdd.2.1 (by decide)
  rw [htw.1, htw.2]
  rw [if_neg (by simpa using hdne)]
  rw [sepFixed_exact 'D' 2 _ _ hf0.1 hf0.2.1]
  simp only [Option.bind_eq_bind, Option.some_bind]
  rw [sepFixed_exact ':' 2 _ _ hf0.1 hf0.2.1]
  simp only [Option.bind_eq_bind, Option.some_bind]
  rw [sepFixed_exact ':' 2 _ _ hf0.1 hf0.2.1]
  simp only [Option.bind_eq_bind, Option.some_bind]
  rw [parseFraction_dot _ (by intro hnil; rw [hnil] at hf90; simp at hf90)
    (by rw [hf90.1]) hf90.2.1]
  simp only [Option.bind_eq_bind, Option.some_bind]
  rw [hf90.1]
  simp only [Nat.sub_self, List.replicate_zero, List.append_nil]
  rw [hdd.1, hf0.2.2, hf90.2.2]
  simp only [if_true]
  rw [if_pos (by omega)]
  rw [if_pos (by unfold Timespan.MIN_NANO Timespan.MAX_NANO; omega)]
  exact congrArg some (congrArg Timespan.mk (by omega))

/-! ## Range containment of from_literal results -/

theorem date_from_literal_in_range (l : List Char) (x : Date)
  (h : Date.from_literal l = some x) :
  Date.MIN_DAYS ≤ x.days ∧ x.days < Date.MAX_DAYS := by
  simp only [Date.from_literal] at h
  rcases h1 : takeFixed 4 l with _ | ⟨⟨y, r1⟩⟩ <;> rw [h1] at h
  · simp at h
  simp only [Option.bind_eq_bind, Option.some_bind] at h
  rcases h2 : sepFixed '.' 2 r1 with _ | ⟨⟨m, r2⟩⟩ <;> rw [h2] at h
  · simp at h
  simp only [Option.bind_eq_bind, Option.some_bind] at h
  rcases h3 : sepFixed '.' 2 r2 with _ | ⟨⟨d, r5⟩⟩ <;> rw [h3] at h
  · simp at h
  simp only [Option.bind_eq_bind, Option.some_bind] at h
  split_ifs at h with hc1 hc2
  rw [Option.some.injEq] at h
  subst h
  exact hc2

theorem timestamp_from_literal_in_range (l : List Char) (x : Timestamp)
  (h : Timestamp.from_literal l = some x) :
  Timestamp.MIN_NANO ≤ x.nanoseconds ∧ x.nanoseconds < Timestamp.MAX_NANO := by
  simp only [Timestamp.from_literal] at h
  rcases h1 : takeFixed 4 l with _ | ⟨⟨y, r1⟩⟩ <;> rw [h1] at h
  · simp at h
  simp only [Option.bind_eq_bind, Option.some_bind] at h
  rcases h2 : sepFixed '.' 2 r1 with _ | ⟨⟨mo, r2⟩⟩ <;> rw [h2] at h
  · simp at h
  simp only [Option.bind_eq_bind, Option.some_bind] at h
  rcases h3 : sepFixed '.' 2 r2 with _ | ⟨⟨d, r3⟩⟩ <;> rw [h3] at h
  · simp at h
  simp only [Option.bind_eq_bind, Option.some_bind] at h
  rcases h4 : sepFixed 'D' 2 r3 with _ | ⟨⟨hh, r4⟩⟩ <;> rw [h4] at h
  · simp at h
  simp only [Option.bind_eq_bind, Option.some_bind] at h
  rcases h5 : sepFixed ':' 2 r4 with _ | ⟨⟨mi, r5⟩⟩ <;> rw [h5] at h
  · simp at h
  simp only [Option.bind_eq_bind, Option.some_bind] at h
  rcases h6 : sepFixed ':' 2 r5 with _ | ⟨⟨ss, r6⟩⟩ <;> rw [h6] at h
  · simp at h
  simp only [Option.bind_eq_bind, Option.some_bind] at h
  rcases h7 : sepFixed '.' 9 r6 with _ | ⟨⟨nano, r13⟩⟩ <;> rw [h7] at h
  · simp at h
  simp only [Option.bind_eq_bind, Option.some_bind] at h
  split_ifs at h with hc1 hc2
  rw [Option.some.injEq] at h
  subst h
  exact hc2

theorem month_from_literal_in_range (l : List Char) (x : Month)
  (h : Month.from_literal l = some x) :
  Month.MIN_MONTHS ≤ x.months ∧ x.months ≤ Month.MAX_MONTHS := by
  rw [Month.from_literal] at h
  split_ifs at h with hshape
  rcases h1 : parseNat (l.take 4) with _ | y <;> rw [h1] at h
  · simp at h
  simp only [Option.bind_eq_bind, Option.some_bind] at h
  rcases h2 : parseInt ((l.drop 5).take 2) with _ | m <;> rw [h2] at h
  · simp at h
  simp only [Option.bind_eq_bind, Option.some_bind] at h
  split_ifs at h with hc1 hc2
  rw [Option.some.injEq] at h
  subst h
  exact hc2

theorem minute_from_literal_in_range (l : List Char) (x : Minute)
  (h : Minute.from_literal l = some x) :
  Minute.MIN_MINUTES ≤ x.minutes ∧ x.minutes ≤ Minute.MAX_MINUTES := by
  rw [Minute.from_literal] at h
  split_ifs at h with hshape
  rcases h1 : parseInt (l.take 2) with _ | hh <;> rw [h1] at h
  · simp at h
  simp only [Option.bind_eq_bind, Option.some_bind] at h
  rcases h2 : parseInt ((l.drop 3).take 2) with _ | mi <;> rw [h2] at h
  · simp at h
  simp only [Option.bind_eq_bind, Option.some_bind] at h
  split_ifs at h with hc1 hc2
  rw [Option.some.injEq] at h
  subst h
  exact hc2

theorem second_from_literal_in_range (l : List Char) (x : Second)
  (h : Second.from_literal l = some x) :
  Second.MIN_SECONDS ≤ x.seconds ∧ x.seconds ≤ Second.MAX_SECONDS := by
  rw [Second.from_literal] at h
  split_ifs at h with hshape
  rcases h1 : parseInt (l.take 2) with _ | hh <;> rw [h1] at h
  · simp at h
  simp only [Option.bind_eq_bind, Option.some_bind] at h
  rcases h2 : parseInt ((l.drop 3).take 2) with _ | mi <;> rw [h2] at h
  · simp at h
  simp only [Option.bind_eq_bind, Option.some_bind] at h
  rcases h3 : parseInt ((l.drop 6).take 2) with _ | ss <;> rw [h3] at h
  · simp at h
  simp only [Option.bind_eq_bind, Option.some_bind] at h
  split_ifs at h with hc1 hc2
  rw [Option.some.injEq] at h
  subst h
  exact hc2

theorem timespan_from_literal_in_range (l : List Char) (x : Timespan)
  (h : Timespan.from_literal l = some x) :
  Timespan.MIN_NANO ≤ x.nanoseconds ∧ x.nanoseconds ≤ Timespan.MAX_NANO := by
  simp only [Timespan.from_literal] at h
  by_cases hds : List.takeWhile isDigitChar (signRest l) = []
  · rw [if_pos hds] at h
    simp at h
  rw [if_neg hds] at h
  rcases h1 : sepFixed 'D' 2 ((signRest l).dropWhile isDigitChar) with _ | ⟨⟨hh, r3⟩⟩ <;>
  rw [h1] at h
  · simp at h
  simp only [Option.bind_eq_bind, Option.some_bind] at h
  rcases h2 : sepFixed ':' 2 r3 with _ | ⟨⟨mi, r5⟩⟩ <;> rw [h2] at h
  · simp at h
  simp only [Option.bind_eq_bind, Option.some_bind] at h
  rcases h3 : sepFixed ':' 2 r5 with _ | ⟨⟨ss, r7⟩⟩ <;> rw [h3] at h
  · simp at h
  simp only [Option.bind_eq_bind, Option.some_bind] at h
  rcases h4 : parseFraction r7 with _ | nanos <;> rw [h4] at h
  · simp at h
  simp only [Option.bind_eq_bind, Option.some_bind] at h
  split_ifs at h
  all_goals rw [Option.some.injEq] at h
  all_goals subst h
  all_goals assumption

/-! ## C1: the literal round trip -/

/-- C1 counterexample: the round-trip law fails on the full [MIN, MAX]
ranges. Minute 1440 lies well inside [MIN_MINUTES, MAX_MINUTES], yet its
literal "24:00" is rejected by from_literal, and Timespan -1 ns round-trips
to +1 ns because the minus sign of a zero day count is lost by to_literal's
absolute-value decomposition. -/
theorem c1_round_trip_counterexample :
    (Minute.MIN_MINUTES ≤ 1440 ∧ (1440 : Int) ≤ Minute.MAX_MINUTES) ∧
    Minute.from_literal (Minute.to_literal ⟨1440⟩) = none ∧
    (Timespan.MIN_NANO ≤ -1 ∧ (-1 : Int) ≤ Timespan.MAX_NANO) ∧
    Timespan.from_literal (Timespan.to_literal ⟨-1⟩) = some ⟨1⟩ := by decide

/-- C1 (amended): from_literal ∘ to_literal is the identity exactly on these
restricted domains, not on the full [MIN, MAX] ranges: Date on
[MIN_DAYS, MAX_DAYS), Month on all of [MIN_MONTHS, MAX_MONTHS], Minute on
[0, 1439], Second on [0, 86399], Timespan on the nonnegative values up to
MAX_NANO together with the negative whole multiples of a day down to
MIN_NANO, and Timestamp on [MIN_NANO, MAX_NANO). -/
theorem c1_round_trip_on_valid_domains :
    (∀ x : Date, Date.MIN_DAYS ≤ x.days → x.days < Date.MAX_DAYS →
      Date.from_literal (Date.to_literal x) = some x) ∧
    (∀ x : Month, Month.MIN_MONTHS ≤ x.months → x.months ≤ Month.MAX_MONTHS →
      Month.from_literal (Month.to_literal x) = some x) ∧
    (∀ x : Minute, 0 ≤ x.minutes → x.minutes ≤ 1439 →
      Minute.from_literal (Minute.to_literal x) = some x) ∧
    (∀ x : Second, 0 ≤ x.seconds → x.seconds ≤ 86399 →
      Second.from_literal (Second.to_literal x) = some x) ∧
    (∀ x : Timespan,
      (0 ≤ x.nanoseconds ∧ x.nanoseconds ≤ Timespan.MAX_NANO) ∨
      (Timespan.MIN_NANO ≤ x.nanoseconds ∧ x.nanoseconds < 0 ∧
        (86400000000000 : Int) ∣ x.nanoseconds) →
      Timespan.from_literal (Timespan.to_literal x) = some x) ∧
    (∀ x : Timestamp, Timestamp.MIN_NANO ≤ x.nanoseconds →
      x.nanoseconds < Timestamp.MAX_NANO →
      Timestamp.from_literal (Timestamp.to_literal x) = some x) := by
  refine ⟨date_round_trip, month_round_trip, minute_round_trip, second_round_trip,
    ?_, timestamp_round_trip⟩
  intro x hx
  rcases hx with ⟨h1, h2⟩ | ⟨h1, h2, h3⟩
  · exact timespan_round_trip_nonneg x h1 h2
  · exact timespan_round_trip_negday x h1 h2 h3

/-- C1 witness: the amended round trip applied at one representative of each
domain, including a negative whole-day timespan. -/
theorem c1_round_trip_witness :
    Date.from_literal (Date.to_literal ⟨0⟩) = some ⟨0⟩ ∧
    Month.from_literal (Month.to_literal ⟨0⟩) = some ⟨0⟩ ∧
    Minute.from_literal (Minute.to_literal ⟨754⟩) = some ⟨754⟩ ∧
    Second.from_literal (Second.to_literal ⟨45296⟩) = some ⟨45296⟩ ∧
    Timespan.from_literal (Timespan.to_literal ⟨-86400000000000⟩) =
      some ⟨-86400000000000⟩ ∧
    Timestamp.from_literal (Timestamp.to_literal ⟨0⟩) = some ⟨0⟩ :=
  ⟨c1_round_trip_on_valid_domains.1 ⟨0⟩ (by decide) (by decide),
   c1_round_trip_on_valid_domains.2.1 ⟨0⟩ (by decide) (by decide),
   c1_round_trip_on_valid_domains.2.2.1 ⟨754⟩ (by decide) (by decide),
   c1_round_trip_on_valid_domains.2.2.2.1 ⟨45296⟩ (by decide) (by decide),
   c1_round_trip_on_valid_domains.2.2.2.2.1 ⟨-86400000000000⟩
     (Or.inr ⟨by decide, by decide, ⟨-1, by decide⟩⟩),
   c1_round_trip_on_valid_domains.2.2.2.2.2 ⟨0⟩ (by decide) (by decide)⟩

/-! ## C3: constructor validation -/

/-- C3 counterexample: Timestamp::from_i64 and Timespan::from_i64 apply no
range check at all — they accept i64::MAX, which is above MAX_NANO — and
Date::from_i32 rejects MAX_DAYS, the underlying integer of Date::MAX, because
its assert uses the half-open range MIN_DAYS..MAX_DAYS. -/
theorem c3_constructor_validation_counterexample :
    Timestamp.from_i64 9223372036854775807 = ⟨9223372036854775807⟩ ∧
    Timestamp.MAX_NANO < 9223372036854775807 ∧
    Timespan.from_i64 9223372036854775807 = ⟨9223372036854775807⟩ ∧
    Timespan.MAX_NANO < 9223372036854775807 ∧
    Date.from_i32 Date.MAX_DAYS = none ∧
    Date.MAX = ⟨Date.MAX_DAYS⟩ := by decide

/-- C3 (amended): what each constructor actually validates. Date::from_i32
checks the half-open range [MIN_DAYS, MAX_DAYS) — so Date::MAX itself is
rejected; Month, Minute and Second from_i32 check their closed ranges;
Timespan::from_i64 and Timestamp::from_i64 perform no check and return the
raw value; and every from_literal success lies in the respective range
(half-open for Date and Timestamp, closed for the others). -/
theorem c3_constructor_validation_amended :
    (∀ d : Int, Date.from_i32 d =
      if Date.MIN_DAYS ≤ d ∧ d < Date.MAX_DAYS then some ⟨d⟩ else none) ∧
    (∀ m : Int, Month.from_i32 m =
      if Month.MIN_MONTHS ≤ m ∧ m ≤ Month.MAX_MONTHS then some ⟨m⟩ else none) ∧
    (∀ m : Int, Minute.from_i32 m =
      if Minute.MIN_MINUTES ≤ m ∧ m ≤ Minute.MAX_MINUTES then some ⟨m⟩ else none) ∧
    (∀ s : Int, Second.from_i32 s =
      if Second.MIN_SECONDS ≤ s ∧ s ≤ Second.MAX_SECONDS then some ⟨s⟩ else none) ∧
    (∀ n : Int, Timespan.from_i64 n = ⟨n⟩) ∧
    (∀ n : Int, Timestamp.from_i64 n = ⟨n⟩) ∧
    (∀ l x, Date.from_literal l = some x →
      Date.MIN_DAYS ≤ x.days ∧ x.days < Date.MAX_DAYS) ∧
    (∀ l x, Month.from_literal l = some x →
      Month.MIN_MONTHS ≤ x.months ∧ x.months ≤ Month.MAX_MONTHS) ∧
    (∀ l x, Minute.from_literal l = some x →
      Minute.MIN_MINUTES ≤ x.minutes ∧ x.minutes ≤ Minute.MAX_MINUTES) ∧
    (∀ l x, Second.from_literal l = some x →
      Second.MIN_SECONDS ≤ x.seconds ∧ x.seconds ≤ Second.MAX_SECONDS) ∧
    (∀ l x, Timespan.from_literal l = some x →
      Timespan.MIN_NANO ≤ x.nanoseconds ∧ x.nanoseconds ≤ Timespan.MAX_NANO) ∧
    (∀ l x, Timestamp.from_literal l = some x →
      Timestamp.MIN_NANO ≤ x.nanoseconds ∧ x.nanoseconds < Timestamp.MAX_NANO) :=
  ⟨fun _ => rfl, fun _ => rfl, fun _ => rfl, fun _ => rfl, fun _ => rfl, fun _ => rfl,
   date_from_literal_in_range, month_from_literal_in_range, minute_from_literal_in_range,
   second_from_literal_in_range, timespan_from_literal_in_range,
   timestamp_from_literal_in_range⟩

/-- C3 witness: the amended characterisation applied at concrete points — a
from_i32 success, the Date.MAX_DAYS rejection and a from_literal range
containment at the parsed epoch date. -/
theorem c3_constructor_validation_witness :
    Date.from_i32 0 = some ⟨0⟩ ∧
    Date.from_i32 Date.MAX_DAYS = none ∧
    Timestamp.from_i64 9223372036854775807 = ⟨9223372036854775807⟩ ∧
    (Date.MIN_DAYS ≤ (0 : Int) ∧ (0 : Int) < Date.MAX_DAYS) := by
  refine ⟨?_, ?_, c3_constructor_validation_amended.2.2.2.2.2.1 9223372036854775807, ?_⟩
  · rw [c3_constructor_validation_amended.1 0]
    decide
  · rw [c3_constructor_validation_amended.1 Date.MAX_DAYS]
    decide
  · have := c3_constructor_validation_amended.2.2.2.2.2.2.1
      (Date.to_literal ⟨0⟩) ⟨0⟩ (by decide)
    exact this

/-! ## C9: add and sub apply no range check -/

/-- C9: adding or subtracting a raw integer to a temporal value yields the
exact integer sum or difference — no [MIN, MAX] range check — whenever the
result stays inside the machine-integer width (i32 for Date and Month, i64
for Timestamp), even when it is far outside the range the constructors
enforce. -/
theorem c9_add_sub_exact_no_range_check :
    (∀ (d : Date) (n : Int), -(2 ^ 31) ≤ d.days + n → d.days + n < 2 ^ 31 →
      Date.to_i32 (Date.add d n) = Date.to_i32 d + n) ∧
    (∀ (d : Date) (n : Int), -(2 ^ 31) ≤ d.days - n → d.days - n < 2 ^ 31 →
      Date.to_i32 (Date.sub d n) = Date.to_i32 d - n) ∧
    (∀ (t : Timestamp) (n : Int), -(2 ^ 63) ≤ t.nanoseconds + n →
      t.nanoseconds + n < 2 ^ 63 →
      Timestamp.to_i64 (Timestamp.add t n) = Timestamp.to_i64 t + n) ∧
    (∀ (t : Timestamp) (n : Int), -(2 ^ 63) ≤ t.nanoseconds - n →
      t.nanoseconds - n < 2 ^ 63 →
      Timestamp.to_i64 (Timestamp.sub t n) = Timestamp.to_i64 t - n) ∧
    (∀ (m : Month) (n : Int), -(2 ^ 31) ≤ m.months + n → m.months + n < 2 ^ 31 →
      Month.to_i32 (Month.add m n) = Month.to_i32 m + n) ∧
    (∀ (m : Month) (n : Int), -(2 ^ 31) ≤ m.months - n → m.months - n < 2 ^ 31 →
      Month.to_i32 (Month.sub m n) = Month.to_i32 m - n) := by
  refine ⟨fun d n h1 h2 => ?_, fun d n h1 h2 => ?_, fun t n h1 h2 => ?_,
    fun t n h1 h2 => ?_, fun m n h1 h2 => ?_, fun m n h1 h2 => ?_⟩
  · exact wrap32_eq_of_bounded _ h1 h2
  · exact wrap32_eq_of_bounded _ h1 h2
  · exact wrap64_eq_of_bounded _ h1 h2
  · exact wrap64_eq_of_bounded _ h1 h2
  · exact wrap32_eq_of_bounded _ h1 h2
  · exact wrap32_eq_of_bounded _ h1 h2

/-- C9 witness: Date.MAX plus 5 days lands exactly at MAX_DAYS + 5, a value
the constructors reject, with no clamping; likewise Timestamp.MAX plus 1. -/
theorem c9_add_sub_witness :
    Date.to_i32 (Date.add ⟨Date.MAX_DAYS⟩ 5) = Date.to_i32 ⟨Date.MAX_DAYS⟩ + 5 ∧
    Timestamp.to_i64 (Timestamp.add ⟨Timestamp.MAX_NANO⟩ 1) =
      Timestamp.to_i64 ⟨Timestamp.MAX_NANO⟩ + 1 ∧
    Month.to_i32 (Month.sub ⟨Month.MIN_MONTHS⟩ 7) = Month.to_i32 ⟨Month.MIN_MONTHS⟩ - 7 :=
  ⟨c9_add_sub_exact_no_range_check.1 ⟨Date.MAX_DAYS⟩ 5 (by decide) (by decide),
   c9_add_sub_exact_no_range_check.2.2.1 ⟨Timestamp.MAX_NANO⟩ 1 (by decide) (by decide),
   c9_add_sub_exact_no_range_check.2.2.2.2.2 ⟨Month.MIN_MONTHS⟩ 7 (by decide) (by decide)⟩

/-! ## The lexer (src/lex.rs)

The source model is ASCII: one char is one byte, so `byte` offsets index the
`List Char` directly.  `parse.rs` matches on `TokenKind::String` and
`TokenKind::SymbolVec`, variants `TokenKind` does not declare, so the crate
as given does not compile; the embedding keeps the variants `TokenKind`
actually declares. -/

/-- Lean's Char under another name: Numerical and TokenKind also declare a
Char constructor, which would capture the bare name inside their
namespaces. -/
abbrev AsciiChar := Char

/-- Numerical: the thirteen atomic kinds. -/
inductive Numerical where
  | Boolean | Short | Int | Long | Real | Float | Char
  | Date | Month | Minute | Second | Timespan | Timestamp
deriving DecidableEq

/-- AssignThrough: the nineteen assign-through verbs. -/
inductive AssignThrough where
  | Dot | At | Dollar | Bang | Query | Plus | Minus | Star | Percent | Equal
  | Tilde | Less | Greater | Pipe | Ampersand | Hash | Underscore | Caret | Comma
deriving DecidableEq

/-- AssignThrough::from_char. -/
def AssignThrough.from_char (c : Char) : Option AssignThrough :=
  if c = '.' then some .Dot
  else if c = '@' then some .At
  else if c = '$' then some .Dollar
  else if c = '!' then some .Bang
  else if c = '?' then some .Query
  else if c = '+' then some .Plus
  else if c = '-' then some .Minus
  else if c = '*' then some .Star
  else if c = '%' then some .Percent
  else if c = '=' then some .Equal
  else if c = '~' then some .Tilde
  else if c = '<' then some .Less
  else if c = '>' then some .Greater
  else if c = '|' then some .Pipe
  else if c = '&' then some .Ampersand
  else if c = '#' then some .Hash
  else if c = '_' then some .Underscore
  else if c = '^' then some .Caret
  else if c = ',' then some .Comma
  else none

/-- TokenKind, exactly the variants lex.rs declares. -/
inductive TokenKind where
  | LeftParen | RightParen | LeftBrace | RightBrace | LeftBracket | RightBracket
  | Comma | Dot | Minus | Plus | Semicolon | Slash | BackSlash | Star | Percent
  | BackTick | Hash | At | Tilde | Pipe | Ampersand | Caret | Query | Dollar
  | Underscore | Bang
  | NotEqual | Equal | Greater | GreaterEqual | Less | LessEqual
  | Colon | ColonColon | Quote | QuoteColon | SlashColon | BackslashColon
  | BackslashBackslash
  | AssignThrough (a : RQ.AssignThrough)
  | Identifier | Byte | Char | Symbol
  | Typed (t : Numerical) | Untyped (t : Numerical)
  | QString | ByteVec
  | Eof
deriving DecidableEq

/-- Token: origin slice, byte offset, kind. -/
structure Token where
  origin : List Char
  offset : Nat
  kind : TokenKind
deriving DecidableEq

/-- The lexer's error values: SingleTokenError, StringTerminationError and
InvalidLiteralError, keeping the observable token, span and help fields. -/
inductive LexError where
  | singleToken (token : Char) (spanStart spanEnd : Nat) (help : Option String)
  | stringTermination (spanStart spanEnd : Nat)
  | invalidLiteral (literal : List Char) (offset len2 : Nat) (help : Option String)
deriving DecidableEq

/-- The help text of the one-colon-with-fraction error. -/
def ambiguousColonHelp : String :=
  "HH:MM.xxx is ambiguous; use explicit patterns like HH:MM:SS.xxx or HH:MM:SS"

/-- The help text of the leading-underscore symbol error. -/
def symbolUnderscoreHelp : String := "a symbol starting with _ is ambiguous in q"

/-- Numerical::from_suffix: the twelve suffix letters. -/
def Numerical.from_suffix (c : AsciiChar) : Option Numerical :=
  match c with
  | 'b' => some .Boolean
  | 'h' => some .Short
  | 'i' => some .Int
  | 'j' => some .Long
  | 'e' => some .Real
  | 'f' => some .Float
  | 'd' => some .Date
  | 'm' => some .Month
  | 'u' => some .Minute
  | 'v' => some .Second
  | 'n' => some .Timespan
  | 'p' => some .Timestamp
  | _ => none

/-- Numerical::parse_untyped: shape classification of an untyped literal. -/
def Numerical.parse_untyped (origin : List AsciiChar) (offset : Nat) :
    Except LexError Numerical :=
  let has_d := origin.contains 'D'
  let colon_count := origin.countP (fun c => c == ':')
  let dot_count := origin.countP (fun c => c == '.')
  if has_d then
    if (origin.takeWhile (fun c => !(c == 'D'))).contains '.' then .ok .Timestamp
    else .ok .Timespan
  else if colon_count > 0 then
    let has_fractional := ((origin.reverse.takeWhile (fun c => !(c == ':'))).reverse).contains '.'
    match colon_count, has_fractional with
    | 1, false => .ok .Minute
    | 1, true => .error (.invalidLiteral origin offset origin.length (some ambiguousColonHelp))
    | 2, false => .ok .Second
    | 2, true => .ok .Timespan
    | _, _ => .error (.invalidLiteral origin offset origin.length none)
  else if dot_count > 0 then
    if dot_count = 2 then .ok .Date
    else if dot_count = 1 then .ok .Float
    else .error (.invalidLiteral origin offset origin.length none)
  else .ok .Long

/-- u8::is_ascii_whitespace: space, tab, newline, form feed, carriage return. -/
def isAsciiByteWhitespace (c : Char) : Bool :=
  c == ' ' || c == '\t' || c == '\n' || c == '\x0C' || c == '\r'

/-- char::is_whitespace restricted to ASCII: 0x09..0x0D and space. -/
def isRustWhitespace (c : Char) : Bool :=
  c == ' ' || c == '\t' || c == '\n' || c == '\x0B' || c == '\x0C' || c == '\r'

/-- char::is_ascii_hexdigit. -/
def isAsciiHexDigit (c : Char) : Bool :=
  (decide ('0' ≤ c) && decide (c ≤ '9')) ||
  (decide ('a' ≤ c) && decide (c ≤ 'f')) ||
  (decide ('A' ≤ c) && decide (c ≤ 'F'))

/-- An ASCII letter, as the identifier start ranges a..z and A..Z. -/
def isAsciiAlpha (c : Char) : Bool :=
  (decide ('a' ≤ c) && decide (c ≤ 'z')) || (decide ('A' ≤ c) && decide (c ≤ 'Z'))

/-- A character of an identifier body: letter, digit or underscore. -/
def isIdentChar (c : Char) : Bool :=
  isAsciiAlpha c || isDigitChar c || c == '_'

/-- A character a symbol literal may contain: alphanumeric, '_' or ':'. -/
def isSymbolChar (c : Char) : Bool :=
  isAsciiAlpha c || isDigitChar c || c == '_' || c == ':'

/-- A character of a numeric literal body: digits and . : D N W n w. -/
def isNumBodyChar (c : Char) : Bool :=
  c == '.' || c == ':' || c == 'D' || c == 'N' || c == 'W' || c == 'n' || c == 'w' ||
  isDigitChar c

/-- The single-character TokenKind of an assign-through verb character. -/
def verbKind (c : Char) : TokenKind :=
  if c = '.' then .Dot
  else if c = '@' then .At
  else if c = '$' then .Dollar
  else if c = '!' then .Bang
  else if c = '?' then .Query
  else if c = '+' then .Plus
  else if c = '-' then .Minus
  else if c = '*' then .Star
  else if c = '%' then .Percent
  else if c = '=' then .Equal
  else if c = '~' then .Tilde
  else if c = '<' then .Less
  else if c = '>' then .Greater
  else if c = '|' then .Pipe
  else if c = '&' then .Ampersand
  else if c = '#' then .Hash
  else if c = '_' then .Underscore
  else if c = '^' then .Caret
  else if c = ',' then .Comma
  else .Eof

/-- The string scanner of lex.rs: the byte position of the closing quote in
the rest of the input, skipping a character after each backslash. -/
def strEnd : List Char → Bool → Option Nat
  | [], _ => none
  | b :: t, escaped =>
    if escaped then (strEnd t false).map (· + 1)
    else if b = '\\' then (strEnd t true).map (· + 1)
    else if b = '"' then some 0
    else (strEnd t false).map (· + 1)

/-- Lexer::next's loop, one pulled item at a time.  `byte` is the current
offset into `whole`; the result pairs the produced item with the offset after
it (`none` is the iterator's None).  Whitespace and comments recurse on
`fuel`; `whole.length + 1` fuel always suffices since every pass consumes at
least one character. -/
def rawNext (whole : List Char) : Nat → Nat → Option (Except LexError Token × Nat)
  | 0, _ => none
  | fuel + 1, byte =>
    match whole.drop byte with
    | [] => none
    | c :: rest1 =>
      let c_at := byte
      let byte1 := byte + 1
      let c_onwards := c :: rest1
      let prev_whitespace : Bool :=
        decide (c_at = 0) || isAsciiByteWhitespace (whole.getD (c_at - 1) ' ')
      if c = '(' then some (.ok ⟨[c], c_at, .LeftParen⟩, byte1)
      else if c = ')' then some (.ok ⟨[c], c_at, .RightParen⟩, byte1)
      else if c = '\x7b' then some (.ok ⟨[c], c_at, .LeftBrace⟩, byte1)
      else if c = '\x7d' then some (.ok ⟨[c], c_at, .RightBrace⟩, byte1)
      else if c = '[' then some (.ok ⟨[c], c_at, .LeftBracket⟩, byte1)
      else if c = ']' then some (.ok ⟨[c], c_at, .RightBracket⟩, byte1)
      else if c = ';' then some (.ok ⟨[c], c_at, .Semicolon⟩, byte1)
      else if (AssignThrough.from_char c).isSome then
        if rest1.headD '\x00' = ':' then
          some (.ok ⟨[c, ':'], c_at, .AssignThrough ((AssignThrough.from_char c).getD .Dot)⟩,
            byte1 + 1)
        else if c = '<' ∧ rest1.headD '\x00' = '>' then
          some (.ok ⟨['<', '>'], c_at, .NotEqual⟩, byte1 + 1)
        else if c = '<' ∧ rest1.headD '\x00' = '=' then
          some (.ok ⟨['<', '='], c_at, .LessEqual⟩, byte1 + 1)
        else if c = '>' ∧ rest1.headD '\x00' = '=' then
          some (.ok ⟨['>', '='], c_at, .GreaterEqual⟩, byte1 + 1)
        else some (.ok ⟨[c], c_at, verbKind c⟩, byte1)
      else if c = ':' then
        if rest1.headD '\x00' = ':' then some (.ok ⟨[':', ':'], c_at, .ColonColon⟩, byte1 + 1)
        else some (.ok ⟨[c], c_at, .Colon⟩, byte1)
      else if c = '\'' then
        if rest1.headD '\x00' = ':' then some (.ok ⟨['\'', ':'], c_at, .QuoteColon⟩, byte1 + 1)
        else some (.ok ⟨[c], c_at, .Quote⟩, byte1)
      else if c = '\\' then
        if rest1.headD '\x00' = ':' then
          some (.ok ⟨['\\', ':'], c_at, .BackslashColon⟩, byte1 + 1)
        else if rest1.headD '\x00' = '\\' then
          some (.ok ⟨['\\', '\\'], c_at, .BackslashBackslash⟩, byte1 + 1)
        else some (.ok ⟨[c], c_at, .BackSlash⟩, byte1)
      else if c = Char.ofNat 96 then
        if rest1.headD '\x00' = '_' then
          some (.error (.singleToken '_' byte1 (byte1 + 1) (some symbolUnderscoreHelp)),
            byte1 + rest1.length)
        else
          let e := List.findIdx (fun ch => !(isSymbolChar ch)) rest1
          some (.ok ⟨c_onwards.take (e + 1), c_at, .Symbol⟩, byte1 + e)
      else if c = '"' then
        match strEnd rest1 false with
        | some e =>
          some (.ok ⟨c_onwards.take (e + 2), c_at, if e = 1 then .Char else .QString⟩,
            byte1 + e + 1)
        | none =>
          some (.error (.stringTermination c_at whole.length), byte1 + rest1.length)
      else if c = '/' then
        if prev_whitespace then
          let offset := match rest1.findIdx? (fun ch => ch == '\\') with
            | some k => k + 1
            | none => rest1.findIdx (fun ch => ch == '\n')
          rawNext whole fuel (byte1 + offset)
        else if rest1.headD '\x00' = ':' then
          some (.ok ⟨['/', ':'], c_at, .SlashColon⟩, byte1 + 1)
        else some (.ok ⟨[c], c_at, .Slash⟩, byte1)
      else if isAsciiAlpha c then
        let fni := List.findIdx (fun ch => !(isIdentChar ch)) c_onwards
        some (.ok ⟨c_onwards.take fni, c_at, .Identifier⟩, c_at + fni)
      else if isDigitChar c then
        if c = '0' ∧ rest1.headD '\x00' = 'x' then
          let after0x := c_onwards.drop 2
          let hexLen := List.findIdx (fun ch => !(isAsciiHexDigit ch)) after0x
          let lit := c_onwards.take (2 + hexLen)
          some (.ok ⟨lit, c_at, if lit.length ≤ 4 then .Byte else .ByteVec⟩, c_at + lit.length)
        else
          let fnd := List.findIdx (fun ch => !(isNumBodyChar ch)) c_onwards
          let suffix := (c_onwards.drop fnd).headD '\x00'
          match Numerical.from_suffix suffix with
          | some t =>
            let lit := c_onwards.take (fnd + 1)
            some (.ok ⟨lit, c_at, .Typed t⟩, c_at + lit.length)
          | none =>
            let lit := c_onwards.take fnd
            match Numerical.parse_untyped lit c_at with
            | .ok t => some (.ok ⟨lit, c_at, .Untyped t⟩, c_at + lit.length)
            | .error e => some (.error e, byte1)
      else if isRustWhitespace c then rawNext whole fuel byte1
      else some (.error (.singleToken c c_at byte1 none), byte1)

deriving instance DecidableEq for Except

/-- The lexer state: the whole input, the current byte offset and the
peeked buffer. -/
structure Lexer where
  whole : List Char
  byte : Nat
  peeked : Option (Except LexError Token)
deriving DecidableEq

/-- Lexer::new. -/
def Lexer.new (input : List Char) : Lexer := ⟨input, 0, none⟩

/-- Iterator::next for Lexer: take the peeked item if there is one, else pull
from the raw scanner (a returned None leaves the input exhausted). -/
def Lexer.next (l : Lexer) : Option (Except LexError Token) × Lexer :=
  match l.peeked with
  | some item => (some item, { l with peeked := none })
  | none =>
    match rawNext l.whole (l.whole.length + 1) l.byte with
    | some (item, b1) => (some item, { l with byte := b1 })
    | none => (none, { l with byte := l.whole.length })

/-- Lexer::peek: return the buffered item, or pull one with next() and
buffer it. -/
def Lexer.peek (l : Lexer) : Option (Except LexError Token) × Lexer :=
  match l.peeked with
  | some item => (some item, l)
  | none =>
    match Lexer.next l with
    | (some item, l1) => (some item, { l1 with peeked := some item })
    | (none, l1) => (none, l1)

/-! ## The vector-grouping pass (src/parse.rs)

parse.rs's preprocess matches `tok.kind` against `TokenKind::String` and
`TokenKind::SymbolVec`, variants `TokenKind` does not declare, so the crate
as given does not compile; the embedding keeps the remaining arms. -/

/-- PreToken of parse.rs (the enum itself declares all five variants). -/
inductive PreToken where
  | Single (t : Token)
  | String (t : Token)
  | ByteVec (t : Token)
  | SymbolVec (t : Token)
  | Vector (tokens : List Token) (elem_type : Numerical)
deriving DecidableEq

/-- is_numeric of parse.rs. -/
def is_numeric (kind : TokenKind) : Bool :=
  match kind with
  | .Typed _ => true
  | .Untyped _ => true
  | _ => false

/-- is_typed of parse.rs. -/
def is_typed (kind : TokenKind) : Bool :=
  match kind with
  | .Typed _ => true
  | _ => false

/-- is_adjacent of parse.rs: the next token starts exactly where the
previous one ends. -/
def is_adjacent (prev next : Token) : Bool :=
  prev.offset + prev.origin.length == next.offset

/-- The error type of preprocess: a propagated lexer error or
InvalidVectorLiteralError with its span and help. -/
inductive PreprocessError where
  | lex (e : LexError)
  | invalidVector (spanStart spanLen : Nat) (help : String)
deriving DecidableEq

/-- The help text of InvalidVectorLiteralError. -/
def vectorHelp : String := "only the last element is allowed to have a suffix"

/-- The first match of the preprocess loop: the TokenKind::String and
TokenKind::SymbolVec arms cannot exist, leaving ByteVec and the non-numeric
Single arm. -/
def classify1 (tok : Token) : Option PreToken :=
  if tok.kind = .ByteVec then some (.ByteVec tok)
  else if !(is_numeric tok.kind) then some (.Single tok)
  else none

/-- The inner while loop of preprocess: greedily extend the group with
adjacent numeric tokens; returns the extension and the untouched rest. -/
def growChain (prev : Token) : List Token → (List Token × List Token)
  | [] => ([], [])
  | next :: rest =>
    if is_numeric next.kind ∧ is_adjacent prev next then
      (next :: (growChain next rest).1, (growChain next rest).2)
    else ([], next :: rest)

/-- The elem_type extraction from the run's last token (the catchall is the
source's unreachable!). -/
def elemTypeOf (t : Token) : Numerical :=
  match t.kind with
  | .Typed k => k
  | .Untyped k => k
  | _ => .Long

/-- The preprocess loop over the collected tokens.  Each pass consumes at
least the head token, so fuel `tokens.length + 1` always suffices. -/
def preprocessGo : Nat → List Token → Except PreprocessError (List PreToken)
  | 0, _ => .ok []
  | _ + 1, [] => .ok []
  | fuel + 1, tok :: ts =>
    match classify1 tok with
    | some p => (preprocessGo fuel ts).map (p :: ·)
    | none =>
      let ext := (growChain tok ts).1
      let rest := (growChain tok ts).2
      if ext = [] then (preprocessGo fuel rest).map (.Single tok :: ·)
      else
        match (tok :: ext).dropLast.find? (fun t => is_typed t.kind) with
        | some illegal =>
          .error (.invalidVector illegal.offset illegal.origin.length vectorHelp)
        | none =>
          (preprocessGo fuel rest).map
            (.Vector (tok :: ext) (elemTypeOf ((tok :: ext).getLastD tok)) :: ·)

/-- Lexer::collect::<Result<Vec<Token>, _>>: pull until None, stopping at the
first error. -/
def lexAllGo (whole : List Char) : Nat → Nat → Except LexError (List Token)
  | 0, _ => .ok []
  | fuel + 1, b =>
    match rawNext whole (whole.length + 1) b with
    | none => .ok []
    | some (.error e, _) => .error e
    | some (.ok t, b1) => (lexAllGo whole fuel b1).map (t :: ·)

/-- All tokens of an input, or its first lexer error. -/
def lexAll (whole : List Char) : Except LexError (List Token) :=
  lexAllGo whole (whole.length + 1) 0

/-- preprocess of parse.rs: collect the tokens, then group them. -/
def preprocess (input : List Char) : Except PreprocessError (List PreToken) :=
  match lexAll input with
  | .error e => .error (.lex e)
  | .ok tokens => preprocessGo (tokens.length + 1) tokens

/-! ## Spec-side chain notions and the growChain lemmas -/

/-- Spec side: the run is a chain — every token is numeric and starts exactly
where its predecessor ends. -/
def chainOk : Token → List Token → Bool
  | _, [] => true
  | prev, n :: rest => is_numeric n.kind && is_adjacent prev n && chainOk n rest

/-- The last token of the group prev :: l. -/
def lastOf (prev : Token) (l : List Token) : Token := l.getLastD prev

theorem growChain_chainOk (ts : List Token) : ∀ prev : Token,
    chainOk prev (growChain prev ts).1 = true := by
  induction ts with
  | nil => intro prev; rfl
  | cons n rest ih =>
    intro prev
    simp only [growChain]
    split_ifs with h
    · simp only [chainOk, Bool.and_eq_true]
      exact ⟨⟨h.1, h.2⟩, ih n⟩
    · rfl

theorem growChain_append (ts : List Token) : ∀ prev : Token,
    (growChain prev ts).1 ++ (growChain prev ts).2 = ts := by
  induction ts with
  | nil => intro prev; rfl
  | cons n rest ih =>
    intro prev
    simp only [growChain]
    split_ifs with h
    · simp only [List.cons_append, ih n]
    · rfl

theorem growChain_max (ts : List Token) : ∀ prev h,
    (growChain prev ts).2.head? = some h →
    ¬(is_numeric h.kind = true ∧ is_adjacent (lastOf prev (growChain prev ts).1) h = true) := by
  induction ts with
  | nil => intro prev h hh; simp [growChain] at hh
  | cons n rest ih =>
    intro prev h hh
    simp only [growChain] at hh ⊢
    split_ifs at hh ⊢ with hc
    · have := ih n h hh
      simpa only [lastOf, List.getLastD_cons] using this
    · simp only [List.head?_cons, Option.some.injEq] at hh
      subst hh
      simpa only [lastOf, List.getLastD_nil] using hc

/-! ## C6: the vector-grouping property -/

/-- The C6 property of one grouping step at a numeric head token: the greedy
group is a maximal adjacent numeric chain; a run of one stays Single; a run
of two or more becomes one Vector keyed by the last token's kind when no
non-last token is Typed, and fails with InvalidVectorLiteralError spanning
the first Typed non-last token otherwise. -/
def vectorGroupingSpec (tok : Token) (ts : List Token) : Prop :=
  chainOk tok (growChain tok ts).1 = true ∧
  (growChain tok ts).1 ++ (growChain tok ts).2 = ts ∧
  (∀ h, (growChain tok ts).2.head? = some h →
    ¬(is_numeric h.kind = true ∧
      is_adjacent (lastOf tok (growChain tok ts).1) h = true)) ∧
  (∀ fuel, (growChain tok ts).1 = [] →
    preprocessGo (fuel + 1) (tok :: ts) =
      (preprocessGo fuel (growChain tok ts).2).map (.Single tok :: ·)) ∧
  (∀ fuel, (growChain tok ts).1 ≠ [] →
    (∀ t ∈ (tok :: (growChain tok ts).1).dropLast, is_typed t.kind = false) →
    preprocessGo (fuel + 1) (tok :: ts) =
      (preprocessGo fuel (growChain tok ts).2).map
        (.Vector (tok :: (growChain tok ts).1)
          (elemTypeOf (lastOf tok (growChain tok ts).1)) :: ·)) ∧
  (∀ fuel illegal, (growChain tok ts).1 ≠ [] →
    (tok :: (growChain tok ts).1).dropLast.find? (fun t => is_typed t.kind) =
      some illegal →
    preprocessGo (fuel + 1) (tok :: ts) =
      .error (.invalidVector illegal.offset illegal.origin.length vectorHelp))

theorem classify1_none_of_numeric (tok : Token) (hn : is_numeric tok.kind = true) :
    classify1 tok = none := by
  unfold classify1
  cases hk : tok.kind <;> simp_all [is_numeric]

/-- C6: at every numeric head token, the grouping pass behaves exactly as the
vector-grouping property describes. -/
theorem c6_vector_grouping (tok : Token) (ts : List Token)
    (hn : is_numeric tok.kind = true) : vectorGroupingSpec tok ts := by
  have hc := classify1_none_of_numeric tok hn
  refine ⟨growChain_chainOk ts tok, growChain_append ts tok, growChain_max ts tok,
    ?_, ?_, ?_⟩
  · intro fuel hext
    simp only [preprocessGo, hc]
    rw [if_pos hext]
  · intro fuel hext hnone
    have hfind : (tok :: (growChain tok ts).1).dropLast.find?
        (fun t => is_typed t.kind) = none := by
      rw [List.find?_eq_none]
      intro t ht
      simp [hnone t ht]
    simp only [preprocessGo, hc]
    rw [if_neg hext, hfind]
    simp only [lastOf, List.getLastD_cons]
  · intro fuel illegal hext hfind
    simp only [preprocessGo, hc]
    rw [if_neg hext, hfind]

/-- C6 witness: the grouping property at the two adjacent untyped longs of
"1 2" ... at tokens ⟨"1", 0⟩ and ⟨"2", 1⟩. -/
theorem c6_vector_grouping_witness :
    vectorGroupingSpec ⟨['1'], 0, .Untyped .Long⟩ [⟨['2'], 1, .Untyped .Long⟩] :=
  c6_vector_grouping ⟨['1'], 0, .Untyped .Long⟩ [⟨['2'], 1, .Untyped .Long⟩] (by decide)

/-! ## C5: the suffix table -/

/-- The twelve-letter suffix table of the specification. -/
def suffixTable : List (AsciiChar × Numerical) :=
  [('b', .Boolean), ('h', .Short), ('i', .Int), ('j', .Long), ('e', .Real),
   ('f', .Float), ('d', .Date), ('m', .Month), ('u', .Minute), ('v', .Second),
   ('n', .Timespan), ('p', .Timestamp)]

/-- C5: from_suffix returns Some k exactly for the pairs of the twelve-letter
table b h i j e f d m u v n p — every other character yields None. -/
theorem c5_suffix_classifier (c : Char) (k : Numerical) :
    Numerical.from_suffix c = some k ↔ (c, k) ∈ suffixTable := by
  constructor
  · intro h
    rw [Numerical.from_suffix.eq_def] at h
    split at h <;>
      first
        | (rw [Option.some.injEq] at h; subst h; decide)
        | exact Option.noConfusion h
  · intro h
    fin_cases h <;> rfl

/-- C5 witness: the table applied in both directions at 'p', and None at a
character outside the table. -/
theorem c5_suffix_witness :
    Numerical.from_suffix 'p' = some .Timestamp ∧ Numerical.from_suffix 'z' = none :=
  ⟨(c5_suffix_classifier 'p' .Timestamp).mpr (by decide), by decide⟩

/-! ## C4: untyped shape classification -/

/-- The claim's shape classifier, written from the specification's wording:
a 'D' makes it Timestamp or Timespan by the dot before the 'D'; else one or
two colons classify by the fractional part after the last colon; else the
dot count decides Date, Float or Long; everything else is an error
(None). -/
def specClassify (origin : List AsciiChar) : Option Numerical :=
  if origin.contains 'D' then
    if (origin.takeWhile (fun c => !(c == 'D'))).contains '.' then some .Timestamp
    else some .Timespan
  else
    let colons := origin.countP (fun c => c == ':')
    let frac := ((origin.reverse.takeWhile (fun c => !(c == ':'))).reverse).contains '.'
    let dots := origin.countP (fun c => c == '.')
    if colons = 1 ∧ frac = false then some .Minute
    else if colons = 1 ∧ frac = true then none
    else if colons = 2 ∧ frac = false then some .Second
    else if colons = 2 ∧ frac = true then some .Timespan
    else if colons = 0 ∧ dots = 2 then some .Date
    else if colons = 0 ∧ dots = 1 then some .Float
    else if colons = 0 ∧ dots = 0 then some .Long
    else none

/-- C4: parse_untyped classifies exactly as the specification's shape rules:
Ok of the classified kind, or InvalidLiteralError over the whole literal,
with the ambiguity help exactly in the one-colon-with-fraction case. -/
theorem c4_shape_classification (origin : List Char) (offset : Nat) :
    Numerical.parse_untyped origin offset =
      (match specClassify origin with
       | some t => .ok t
       | none => .error (.invalidLiteral origin offset origin.length
           (if origin.countP (fun c => c == ':') = 1 then some ambiguousColonHelp
            else none))) := by
  unfold Numerical.parse_untyped specClassify
  by_cases hD : origin.contains 'D' = true
  · rw [if_pos hD, if_pos hD]
    split_ifs <;> rfl
  · rw [if_neg hD, if_neg hD]
    rcases hn : origin.countP (fun c => c == ':') with _ | _ | _ | n <;>
      rcases hf : ((origin.reverse.takeWhile (fun c => !(c == ':'))).reverse).contains '.' with
        _ | _
    · rw [if_neg (by omega)]
      rcases hd : origin.countP (fun c => c == '.') with _ | _ | _ | d <;> simp
    · rw [if_neg (by omega)]
      rcases hd : origin.countP (fun c => c == '.') with _ | _ | _ | d <;> simp
    · rw [if_pos (by omega)]
      simp
    · rw [if_pos (by omega)]
      simp
    · rw [if_pos (by omega)]
      simp
    · rw [if_pos (by omega)]
      simp
    · rw [if_pos (by omega)]
      simp
    · rw [if_pos (by omega)]
      simp

/-! ## C2: the stream is not terminal on error -/

/-- C2: on "1:2.3" the first pull yields the InvalidLiteralError for "1:2.3"
— and the next pull yields Ok(Colon) at offset 1: the lexer keeps producing
items after an error, contrary to the doc comment on Lexer::next. -/
theorem c2_error_then_more_tokens :
    (Lexer.next (Lexer.new ("1:2.3".toList))).1 =
      some (.error (.invalidLiteral ("1:2.3".toList) 0 5 (some ambiguousColonHelp))) ∧
    (Lexer.next ((Lexer.next (Lexer.new ("1:2.3".toList))).2)).1 =
      some (.ok ⟨[':'], 1, .Colon⟩) := by decide

/-! ## C7: hex literals -/

/-- C7 counterexample: "0x123" has three hex characters after the prefix —
at most four, so the claim predicts Byte — yet the lexer emits ByteVec: the
source compares the whole literal's length (prefix included) against 4, so
Byte only covers up to two hex digits. -/
theorem c7_hex_counterexample :
    ("0x123".toList.drop 2).length ≤ 4 ∧
    (Lexer.next (Lexer.new ("0x123".toList))).1 =
      some (.ok ⟨"0x123".toList, 0, .ByteVec⟩) := by decide

/-- C7 (amended): whenever '0' immediately followed by 'x' starts at byte p,
the lexer consumes the maximal hex-digit run after the prefix and emits one
token over "0x" ++ run — Byte when the whole literal has at most 4
characters, i.e. at most two hex digits after the prefix, ByteVec when it is
longer. -/
theorem c7_hex_rule (whole : List Char) (p fuel : Nat) (s : List Char)
    (h : whole.drop p = '0' :: 'x' :: s) :
    rawNext whole (fuel + 1) p =
      some (.ok ⟨'0' :: 'x' :: s.take (List.findIdx (fun ch => !(isAsciiHexDigit ch)) s), p,
        if 2 + List.findIdx (fun ch => !(isAsciiHexDigit ch)) s ≤ 4 then .Byte
        else .ByteVec⟩,
        p + (2 + List.findIdx (fun ch => !(isAsciiHexDigit ch)) s)) := by
  have hlen : List.findIdx (fun ch => !(isAsciiHexDigit ch)) s ≤ s.length :=
    List.findIdx_le_length _
  simp only [rawNext, h]
  simp only [List.headD_cons, List.drop_succ_cons, List.drop_zero]
  simp [AssignThrough.from_char, isAsciiAlpha, isDigitChar]
  refine ⟨⟨?_, ?_⟩, by omega⟩
  · rw [show 2 + List.findIdx (fun ch => !(isAsciiHexDigit ch)) s =
        List.findIdx (fun ch => !(isAsciiHexDigit ch)) s + 2 from by omega]
    rfl
  · have hiff : (2 + List.findIdx (fun ch => !(isAsciiHexDigit ch)) s ≤ 4 ∨
        s.length ≤ 2) ↔ 2 + List.findIdx (fun ch => !(isAsciiHexDigit ch)) s ≤ 4 := by
      omega
    simp only [hiff]

/-- C7 witness: the amended rule at "0xAB" (two hex digits — Byte) from a
fuel-one scan at offset 0. -/
theorem c7_hex_rule_witness :
    rawNext ("0xAB".toList) 1 0 =
      some (.ok ⟨"0xAB".toList, 0, .Byte⟩, 4) :=
  (c7_hex_rule ("0xAB".toList) 0 0 ("AB".toList) rfl).trans (by decide)

/-! ## C8: comment skipping -/

/-- C8 counterexample: in "1 /c\n2\\3" the comment starting at the '/'
swallows "c\n2\\" — including the '2' on the next line — because a '\'
anywhere in the remaining input takes priority over the line end; the claim's
whichever-comes-first rule would stop at the newline and emit the '2'. -/
theorem c8_comment_counterexample :
    (Lexer.next (Lexer.new ("1 /c\n2\\3".toList))).1 =
      some (.ok ⟨['1'], 0, .Untyped .Long⟩) ∧
    (Lexer.next ((Lexer.next (Lexer.new ("1 /c\n2\\3".toList))).2)).1 =
      some (.ok ⟨['3'], 7, .Untyped .Long⟩) := by decide

/-- C8 (amended): a '/' at offset 0 or right after an ASCII whitespace byte
starts a comment that emits no token and discards up to and including the
first '\' anywhere in the remaining input when one exists — even past line
ends — and otherwise up to the end of the current line. -/
theorem c8_comment_rule (whole : List Char) (p fuel : Nat) (rest : List Char)
    (h : whole.drop p = '/' :: rest)
    (hw : (decide (p = 0) || isAsciiByteWhitespace (whole.getD (p - 1) ' ')) = true) :
    rawNext whole (fuel + 1) p =
      rawNext whole fuel (p + 1 + (match rest.findIdx? (fun ch => ch == '\\') with
        | some k => k + 1
        | none => rest.findIdx (fun ch => ch == '\n'))) := by
  simp only [rawNext, h]
  simp [AssignThrough.from_char, isAsciiAlpha, isDigitChar, hw]
  intro hp hf
  rw [List.getD_eq_getElem?_getD] at hw
  simp [hp, hf] at hw

/-- C8 witness: the amended rule on "1 /c\n2\\3" at the '/' (offset 2): the
scan resumes at offset 7, right after the backslash on the next line. -/
theorem c8_comment_rule_witness :
    rawNext ("1 /c\n2\\3".toList) 6 2 = rawNext ("1 /c\n2\\3".toList) 5 7 :=
  (c8_comment_rule ("1 /c\n2\\3".toList) 2 5 ("c\n2\\3".toList) rfl (by decide)).trans
    (by decide)

/-! ## C10: peek and next agree -/

/-- C10: if peek returns an item, the immediately following next returns that
same item; and peeking again returns the same item with the very same lexer
state, consuming nothing. -/
theorem rawNext_at_length (whole : List Char) (fuel : Nat) :
    rawNext whole (fuel + 1) whole.length = none := by
  simp only [rawNext, List.drop_length]

theorem c10_peek_next_consistent (l : Lexer) :
    (∀ item, (Lexer.peek l).1 = some item →
      (Lexer.next (Lexer.peek l).2).1 = some item) ∧
    Lexer.peek (Lexer.peek l).2 = ((Lexer.peek l).1, (Lexer.peek l).2) := by
  have hraw := rawNext_at_length l.whole l.whole.length
  rcases hp : l.peeked with _ | it
  · rcases hr : rawNext l.whole (l.whole.length + 1) l.byte with _ | ⟨item2, b1⟩
    · constructor
      · intro item h
        simp [Lexer.peek, Lexer.next, hp, hr] at h
      · simp [Lexer.peek, Lexer.next, hp, hr, hraw]
    · constructor
      · intro item h
        simp only [Lexer.peek, Lexer.next, hp, hr] at h ⊢
        simpa using h
      · simp [Lexer.peek, Lexer.next, hp, hr]
  · constructor
    · intro item h
      simp only [Lexer.peek, hp] at h ⊢
      simp only [Option.some.injEq] at h
      subst h
      simp [Lexer.next, hp]
    · simp [Lexer.peek, hp]

/-- C10 witness: on the one-token input "7", next after peek returns the
peeked item. -/
theorem c10_peek_next_witness :
    (Lexer.next (Lexer.peek (Lexer.new ("7".toList))).2).1 =
      some (.ok ⟨['7'], 0, .Untyped .Long⟩) :=
  (c10_peek_next_consistent (Lexer.new ("7".toList))).1 _ (by decide)

end RQ
